import Mathlib

/-!
Verification of the multi-strategy quiz-question detection engine
(`QuestionDetector`): a shallow embedding of the detector's string
operations, DOM queries, strategies, validator and deduplicator, together
with theorems settling the specification's claims about them.

DOM snapshots are modelled as flat lists of (path, node) entries in
document (pre-order) order; node identity is the path, parent navigation
is `List.dropLast` on paths.  JS strings are modelled as `List Char`, and
every JS string operation used by the detector is re-implemented
structurally so that all definitions evaluate inside the kernel.
-/

namespace QuizDetect

/-- JS strings are modelled as lists of characters. -/
abbrev Str := List Char

/-- Coerce a Lean string literal into the `Str` model. -/
def cs (s : String) : Str := s.toList

/-- Whitespace test matching the JS `\s` class on the ASCII range
(space, tab, CR, LF, FF, VT). -/
def isWs (c : Char) : Bool :=
  c.toNat = 32 || c.toNat = 9 || c.toNat = 13 || c.toNat = 10 ||
  c.toNat = 12 || c.toNat = 11

/-- ASCII lower-casing of one character, as `String.prototype.toLowerCase`
acts on the ASCII range. -/
def lowerChar (c : Char) : Char :=
  if 65 ≤ c.toNat ∧ c.toNat ≤ 90 then Char.ofNat (c.toNat + 32) else c

/-- JS `toLowerCase` on the ASCII range. -/
def lower (l : Str) : Str := l.map lowerChar

/-- JS `String.prototype.trim`: strip leading and trailing whitespace. -/
def jsTrim (l : Str) : Str :=
  (((l.dropWhile isWs).reverse.dropWhile isWs).reverse)

/-- Split at every single whitespace character (empty pieces appear
between consecutive whitespace characters). -/
def charSplitWs : Str → List Str
  | [] => [[]]
  | c :: t =>
    if isWs c then [] :: charSplitWs t
    else
      match charSplitWs t with
      | [] => [[c]]
      | w :: ws => (c :: w) :: ws

/-- The maximal non-whitespace runs of a string. -/
def wordsOf (l : Str) : List Str := (charSplitWs l).filter (· ≠ [])

/-- JS `Array.prototype.join(' ')`. -/
def joinSp : List Str → Str
  | [] => []
  | [w] => w
  | w :: ws => w ++ ' ' :: joinSp ws

/-- The detector's `cleanText`: collapse every whitespace run to a single
space and trim the ends; equivalently, the whitespace-separated words
joined by single spaces. -/
def cleanText (l : Str) : Str := joinSp (wordsOf l)

/-- JS `s.split(/\s+/)`: split at whitespace runs, keeping an empty piece
at an end that starts or finishes with whitespace (as JS does). -/
def jsSplitWs (l : Str) : List Str :=
  match charSplitWs l with
  | [] => [[]]
  | [x] => [x]
  | x :: rest => x :: ((rest.dropLast.filter (· ≠ [])) ++ [rest.getLast?.getD []])

/-- JS `s.split(c)` for a single-character separator. -/
def splitOnChar (sep : Char) : Str → List Str
  | [] => [[]]
  | c :: t =>
    if c = sep then [] :: splitOnChar sep t
    else
      match splitOnChar sep t with
      | [] => [[c]]
      | w :: ws => (c :: w) :: ws

/-- Does `p` occur at the head of `l` (character-wise, case-sensitive)? -/
def strStarts : Str → Str → Bool
  | [], _ => true
  | _ :: _, [] => false
  | a :: as, b :: bs => a == b && strStarts as bs

/-- Does `n` occur as a contiguous substring of `h`?  Models JS
`String.prototype.includes` / CSS `[attr*=value]`. -/
def strHas (n : Str) : Str → Bool
  | [] => strStarts n []
  | c :: t => strStarts n (c :: t) || strHas n t

/-- Case-insensitive substring test (both sides ASCII-lowered), modelling
a `/pattern/i.test(s)` with a literal alternative. -/
def strHasCI (n : Str) (h : Str) : Bool := strHas (lower n) (lower h)

/-- Word-character test for the JS `\b` boundary (`[A-Za-z0-9_]`). -/
def isWordChar (c : Char) : Bool := c.isAlphanum || c == '_'

/-- Does keyword `k` (lower-case letters) occur in `h` starting at its
head, with a word boundary after it? -/
def kwHere (k : Str) (h : Str) : Bool :=
  strStarts k (lower h) && !((h.drop k.length).head?.elim false isWordChar)

/-- Scan `h` for keyword `k` delimited by `\b` word boundaries; `prev` is
the character just before the scan position, if any. -/
def kwScan (k : Str) : Option Char → Str → Bool
  | prev, h =>
    (!(prev.elim false isWordChar) && kwHere k h) ||
    (match h with
     | [] => false
     | c :: t => kwScan k (some c) t)

/-- Models `/\b(kw1|kw2|...)\b/i.test(s)` for a list of lower-case keywords. -/
def hasKw (ks : List Str) (s : Str) : Bool := ks.any (fun k => kwScan k none s)

/-- The long interrogative keyword alternation used by the Docebo
strategy's answer-list check. -/
def kwFullList : List Str :=
  [cs "what", cs "which", cs "how", cs "why", cs "when", cs "where",
   cs "who", cs "are", cs "is", cs "does", cs "do"]

/-- The short interrogative keyword alternation used by the
`isLikelyAnswer` check and the deduplicator. -/
def kwShortList : List Str :=
  [cs "what", cs "which", cs "how", cs "why", cs "when", cs "where", cs "who"]

/-- Models `questionTextLower.includes('?')`. -/
def hasQMark (s : Str) : Bool := strHas (cs "?") s

/-- Parse a digit string into the number JS `parseInt` returns for it. -/
def digitsToNat (ds : Str) : Nat := ds.foldl (fun n c => n * 10 + (c.toNat - 48)) 0

/-- Match the lower-case literal `pat` case-insensitively at the head of
`h`, returning the rest of `h` on success. -/
def striCI : Str → Str → Option Str
  | [], rest => some rest
  | _ :: _, [] => none
  | a :: as, b :: bs => if lowerChar b = a then striCI as bs else none

/-- Consume `\s+` (at least one whitespace character). -/
def ws1 : Str → Option Str
  | [] => none
  | c :: t => if isWs c then some (t.dropWhile isWs) else none

/-- Consume `\d+`, returning the digits and the rest. -/
def digits1 (l : Str) : Option (Str × Str) :=
  match l.takeWhile Char.isDigit with
  | [] => none
  | ds => some (ds, l.drop ds.length)

/-- Try to match `Question\s+(\d+)\s+of\s+(\d+)` (case-insensitively) at
the head of `l`, returning the two captured numbers. -/
def matchQAt (l : Str) : Option (Nat × Nat) := do
  let r1 ← striCI (cs "question") l
  let r2 ← ws1 r1
  let (d1, r3) ← digits1 r2
  let r4 ← ws1 r3
  let r5 ← striCI (cs "of") r4
  let r6 ← ws1 r5
  let (d2, _) ← digits1 r6
  some (digitsToNat d1, digitsToNat d2)

/-- First match of `/Question\s+(\d+)\s+of\s+(\d+)/i` in `l`, as the JS
`match` used by the numbered-phrase strategy finds it. -/
def firstQMatch : Str → Option (Nat × Nat)
  | [] => none
  | c :: t =>
    match matchQAt (c :: t) with
    | some r => some r
    | none => firstQMatch t

/-- Models `/Question\s+\d+/i.test(s)`: is there a "Question <number>" phrase? -/
def hasQNum : Str → Bool
  | [] => false
  | c :: t =>
    (match striCI (cs "question") (c :: t) with
     | some r1 =>
       (match ws1 r1 with
        | some r2 => r2.head?.elim false Char.isDigit
        | none => false)
     | none => false) || hasQNum t

/-- Strip a leading `/^quiz\s+\d+:\s*/i` label, returning the rest
(unchanged input when the pattern does not match). -/
def stripQuizLabel (l : Str) : Str :=
  match striCI (cs "quiz") l with
  | none => l
  | some r1 =>
    match ws1 r1 with
    | none => l
    | some r2 =>
      match digits1 r2 with
      | none => l
      | some (_, r3) =>
        match r3 with
        | ':' :: r4 => r4.dropWhile isWs
        | _ => l

/-- Strip a leading `/^Question\s+\d+\s+of\s+\d+[:\s]*/i` label, returning
the rest (unchanged input when the pattern does not match). -/
def stripQOfLabel (l : Str) : Str :=
  match striCI (cs "question") l with
  | none => l
  | some r1 =>
    match ws1 r1 with
    | none => l
    | some r2 =>
      match digits1 r2 with
      | none => l
      | some (_, r3) =>
        match ws1 r3 with
        | none => l
        | some r4 =>
          match striCI (cs "of") r4 with
          | none => l
          | some r5 =>
            match ws1 r5 with
            | none => l
            | some r6 =>
              match digits1 r6 with
              | none => l
              | some (_, r7) => r7.dropWhile (fun c => c == ':' || isWs c)

/-! ## The DOM model

A snapshot is a flat list of nodes in document (pre-order) order.  Each
node is identified by its path from the body (the root, path `[]`); the
parent of a node is `path.dropLast`.  `input.checked` and `input.value`
are fields; every other attribute lives in the `attrs` association list.
-/

/-- A node path: the child-index route from the body element. -/
abbrev Path := List Nat

/-- The data carried by one element node. -/
structure ElemData where
  tag : Str
  idStr : Str
  className : Str
  attrs : List (Str × Str)
  checked : Bool
  value : Str
  deriving DecidableEq, Repr, Inhabited

/-- One DOM node: an element or a text node. -/
inductive DomItem where
  | elem (d : ElemData)
  | text (s : Str)
  deriving DecidableEq, Repr

/-- One entry of the flat snapshot. -/
structure DomEntry where
  path : Path
  item : DomItem
  deriving DecidableEq, Repr

/-- A DOM snapshot: all nodes, in document (pre-order) order. -/
abbrev Dom := List DomEntry

/-- Attribute lookup (`getAttribute`). -/
def attrOf (d : ElemData) (k : Str) : Option Str := d.attrs.lookup k

/-- Models `element.classList` as the whitespace-split class tokens. -/
def classListOf (d : ElemData) : List Str := wordsOf d.className

/-- The element data at a path, if the path names an element node. -/
def elemAt (dom : Dom) (p : Path) : Option ElemData :=
  match dom.find? (fun e => e.path == p) with
  | some e =>
    match e.item with
    | DomItem.elem d => some d
    | DomItem.text _ => none
  | none => none

/-- Is the node at `p` a text node? -/
def isTextAt (dom : Dom) (p : Path) : Bool :=
  match dom.find? (fun e => e.path == p) with
  | some e =>
    match e.item with
    | DomItem.text _ => true
    | DomItem.elem _ => false
  | none => false

/-- Models `parentElement` as path navigation. -/
def parentPath (p : Path) : Option Path :=
  match p with
  | [] => none
  | _ :: _ => some p.dropLast

/-- Models `a.contains(b)` (self-or-descendant) as a path test. -/
def pathContains (a b : Path) : Bool := a.isPrefixOf b

/-- The strict descendants of the node at `cp`, in document order. -/
def descEntries (dom : Dom) (cp : Path) : List DomEntry :=
  dom.filter (fun e => cp.isPrefixOf e.path && !(e.path == cp))

/-- The strict descendant elements of `cp` (path and data), in document
order: the result list of `container.querySelectorAll`. -/
def descElems (dom : Dom) (cp : Path) : List (Path × ElemData) :=
  (descEntries dom cp).filterMap (fun e =>
    match e.item with
    | DomItem.elem d => some (e.path, d)
    | DomItem.text _ => none)

/-- All elements of the document (including the body), in document order:
the result list of `document.querySelectorAll`. -/
def docElems (dom : Dom) : List (Path × ElemData) :=
  dom.filterMap (fun e =>
    match e.item with
    | DomItem.elem d => some (e.path, d)
    | DomItem.text _ => none)

/-- Models `input[type="checkbox"], input[type="radio"]`. -/
def isSelectableInput (d : ElemData) : Bool :=
  d.tag == cs "input" &&
    (attrOf d (cs "type") == some (cs "checkbox") ||
     attrOf d (cs "type") == some (cs "radio"))

/-- The selectable-input descendants of `cp`, in document order. -/
def inputsIn (dom : Dom) (cp : Path) : List Path :=
  (descElems dom cp).filterMap (fun pd =>
    if isSelectableInput pd.2 then some pd.1 else none)

/-- Models `[dcbshquestioncontent], .dcb-course-lesson-questions-question-content`. -/
def isDoceboContent (d : ElemData) : Bool :=
  (attrOf d (cs "dcbshquestioncontent")).isSome ||
  (classListOf d).contains (cs "dcb-course-lesson-questions-question-content")

/-- The Docebo question-content descendants of `cp`. -/
def doceboContentIn (dom : Dom) (cp : Path) : List Path :=
  (descElems dom cp).filterMap (fun pd =>
    if isDoceboContent pd.2 then some pd.1 else none)

/-- Models `textContent`: the concatenated text of the node at `cp` and its
descendants, in document order. -/
def textContent (dom : Dom) (cp : Path) : Str :=
  (dom.filter (fun e => cp.isPrefixOf e.path)).flatMap (fun e =>
    match e.item with
    | DomItem.text s => s
    | DomItem.elem _ => [])

/-- The chain `[p, parent, grandparent, …, []]` from a node up to and
including the body. -/
def upChain (p : Path) : List Path :=
  (List.range (p.length + 1)).reverse.map (fun k => p.take k)

/-- The text-node descendants of `cp`, in document order: the nodes an
all-text `TreeWalker` rooted at `cp` yields. -/
def textDescs (dom : Dom) (cp : Path) : List (Path × Str) :=
  (descEntries dom cp).filterMap (fun e =>
    match e.item with
    | DomItem.text s => some (e.path, s)
    | DomItem.elem _ => none)

/-- Is the element at `p` the first of its tag among its siblings
(CSS `:first-of-type`)? -/
def isFirstOfType (dom : Dom) (p : Path) (tag : Str) : Bool :=
  match p.getLast? with
  | none => true
  | some i =>
    let par := p.dropLast
    !(dom.any (fun e =>
      match e.item with
      | DomItem.elem d =>
        d.tag == tag && e.path.dropLast == par &&
          (match e.path.getLast? with
           | some j => j < i
           | none => false)
      | DomItem.text _ => false))

/-- Models `findCommonAncestor`'s upward scan: starting from the (reversed)
candidate ancestor path, return the first self-or-ancestor containing
every element of `els`; the body `[]` is the final fallback. -/
def ncaScan (els : List Path) : Path → Path
  | [] => []
  | c :: rest =>
    if els.all (fun x => ((c :: rest).reverse).isPrefixOf x) then (c :: rest).reverse
    else ncaScan els rest

/-- The detector's `findCommonAncestor`. -/
def findCommonAncestor (els : List Path) : Option Path :=
  match els with
  | [] => none
  | [e] => parentPath e
  | e :: _ =>
    match parentPath e with
    | none => some []
    | some a => some (ncaScan els a.reverse)

/-! ## Container resolution and field extraction -/

/-- An answer record (`{element, text, isSelected, value}`). -/
structure Answer where
  element : Path
  text : Str
  isSelected : Bool
  value : Str
  deriving DecidableEq, Repr

/-- A question record (`{element, questionText, answers, questionNumber,
totalQuestions}`). -/
structure Question where
  element : Path
  questionText : Str
  answers : List Answer
  questionNumber : Option Nat
  totalQuestions : Option Nat
  deriving DecidableEq, Repr

/-- Models `isLikelyQuestionContainer` (source lines 522-545). -/
def isLikelyQuestionContainer (dom : Dom) (p : Path) : Bool :=
  match elemAt dom p with
  | none => false
  | some d =>
    let hasQuestionClass := (classListOf d).any (fun c =>
      strHasCI (cs "question") c || strHasCI (cs "quiz") c ||
      strHasCI (cs "item") c || strHasCI (cs "card") c || strHasCI (cs "panel") c)
    let hasQuestionId := strHasCI (cs "question") d.idStr ||
      strHasCI (cs "quiz") d.idStr || strHasCI (cs "item") d.idStr
    let hasQuestionText := hasQNum (textContent dom p)
    let hasMultipleInputs := 2 ≤ (inputsIn dom p).length
    let hasDoceboAttr := (attrOf d (cs "dcbshquestioncontent")).isSome
    let hasDoceboClass := (classListOf d).any (fun c =>
      strHasCI (cs "dcb-course-lesson-questions") c)
    let hasDoceboId := strStarts (cs "dcb-sh-question-") d.idStr
    hasQuestionClass || hasQuestionId || (hasQuestionText && hasMultipleInputs) ||
      hasDoceboAttr || hasDoceboClass || hasDoceboId

/-- Models `findQuestionContainer` (source lines 495-517): walk up from the seed
(for a text node, from its parent) checking `isLikelyQuestionContainer`
at every level until the body; on failure fall back to the nearest common
ancestor of the seed's selectable-input descendants when there are at
least two of them. -/
def findQuestionContainer (dom : Dom) (np : Path) : Option Path :=
  let start := if isTextAt dom np then (parentPath np).getD [] else np
  match ((upChain start).dropLast).find? (fun p => isLikelyQuestionContainer dom p) with
  | some c => some c
  | none =>
    let inputs :=
      if isTextAt dom np then
        match parentPath np with
        | some pp => inputsIn dom pp
        | none => []
      else inputsIn dom np
    if 2 ≤ inputs.length then findCommonAncestor inputs else none

/-- Models `getAnswerText` method 1: `document.querySelector('label[for=id]')`. -/
def labelForId (dom : Dom) (idv : Str) : Option Path :=
  ((docElems dom).find? (fun pd =>
    pd.2.tag == cs "label" && attrOf pd.2 (cs "for") == some idv)).map (·.1)

/-- Models `getAnswerText` method 2: `input.closest('label')`. -/
def closestLabel (dom : Dom) (p : Path) : Option Path :=
  (upChain p).find? (fun q =>
    match elemAt dom q with
    | some d => d.tag == cs "label"
    | none => false)

/-- Models `getAnswerText` method 3: scan the following siblings for the first
one whose cleaned text content is non-empty. -/
def nextSiblingText (dom : Dom) (ip : Path) : Option Str :=
  match ip.getLast? with
  | none => none
  | some i =>
    let par := ip.dropLast
    (dom.filter (fun e =>
      e.path.dropLast == par &&
        (match e.path.getLast? with
         | some j => i < j
         | none => false))).findSome? (fun e =>
      let t :=
        match e.item with
        | DomItem.text s => cleanText s
        | DomItem.elem _ => cleanText (textContent dom e.path)
      if t = [] then none else some t)

/-- Remove the first occurrence of `pat` from `l` (JS
`String.prototype.replace` with a string pattern and empty replacement);
`l` is returned unchanged when `pat` does not occur. -/
def removeFirst (pat : Str) : Str → Str
  | [] => []
  | c :: t =>
    if pat = [] then c :: t
    else if strStarts pat (c :: t) then t.drop (pat.length - 1)
    else c :: removeFirst pat t

/-- Models `getAnswerText` (source lines 693-731): resolve the label text of an
answer input via, in order, explicit label association, enclosing label,
following-sibling text, then parent text with the input value removed. -/
def getAnswerText (dom : Dom) (ip : Path) : Str :=
  let d := (elemAt dom ip).getD default
  match (if d.idStr ≠ [] then labelForId dom d.idStr else none) with
  | some lp => cleanText (textContent dom lp)
  | none =>
    match closestLabel dom ip with
    | some lp => cleanText (textContent dom lp)
    | none =>
      match nextSiblingText dom ip with
      | some t => t
      | none =>
        match parentPath ip with
        | some pp => jsTrim (removeFirst d.value (cleanText (textContent dom pp)))
        | none => d.value

/-- The per-input body of `extractAnswers` (source lines 664-685): skip
the input when its resolved text is empty, trims to empty, equals
`"null"`, contains a configured junk phrase, or is shorter than 2
characters; otherwise build the answer record. -/
def answerFor (dom : Dom) (ip : Path) : Option Answer :=
  if getAnswerText dom ip = [] then none
  else if lower (jsTrim (getAnswerText dom ip)) == cs "null" ||
          jsTrim (getAnswerText dom ip) == [] ||
          strHas (cs "terminate the subscription") (lower (jsTrim (getAnswerText dom ip))) ||
          strHas (cs "renew the subscription") (lower (jsTrim (getAnswerText dom ip))) ||
          (jsTrim (getAnswerText dom ip)).length < 2 then none
  else
    some { element := ip, text := jsTrim (getAnswerText dom ip),
           isSelected := ((elemAt dom ip).getD default).checked,
           value := if ((elemAt dom ip).getD default).value ≠ [] then
               ((elemAt dom ip).getD default).value
             else jsTrim (getAnswerText dom ip) }

/-- Models `extractAnswers` (source lines 660-688): one answer record per
selectable-input descendant whose resolved, trimmed text is non-empty,
not `"null"`, free of the configured junk phrases, and of length ≥ 2. -/
def extractAnswers (dom : Dom) (cp : Path) : List Answer :=
  (inputsIn dom cp).filterMap (answerFor dom)

/-- Models `looksLikeAnswer` (source lines 766-771). -/
def looksLikeAnswer (l : Str) : Bool :=
  let t := jsTrim l
  let isListItem :=
    (match t with
     | a :: ')' :: _ => a.isAlpha
     | _ => false) ||
    (match t.takeWhile Char.isDigit with
     | [] => false
     | _ => (t.dropWhile Char.isDigit).head? == some '.') ||
    (match t.head? with
     | some c => c == '-' || c == 'â' || c == '€' || c == '¢' || c == '*'
     | none => false)
  l.length < 50 || isListItem

/-- Models `getTextBeforeElement` (source lines 736-761): the cleaned text-node
contents of `cp` collected in document order until a text node inside the
given element is met, joined by single spaces. -/
def getTextBeforeElement (dom : Dom) (cp ep : Path) : Str :=
  joinSp
    (((textDescs dom cp).takeWhile (fun ts =>
        !(ts.1 == ep || ep.isPrefixOf ts.1))).filterMap (fun ts =>
      let t := cleanText ts.2
      if t = [] then none else some t))

/-- Models `selText`: the `text && text.length > 10` acceptance test applied to
a `querySelector` result in `extractQuestionText` method 1. -/
def selText (dom : Dom) (_cp : Path) (found : Option Path) : Option Str :=
  match found with
  | none => none
  | some p =>
    let t := cleanText (textContent dom p)
    if 10 < t.length then some t else none

/-- Models `container.querySelector` for a predicate on path and element data. -/
def findDescWhere (dom : Dom) (cp : Path) (f : Path → ElemData → Bool) : Option Path :=
  ((descElems dom cp).find? (fun pd => f pd.1 pd.2)).map (·.1)

/-- The ordered selector list of `extractQuestionText` method 1. -/
def m1Selectors (dom : Dom) : List (Path → ElemData → Bool) :=
  [fun _ d => strHas (cs "question-text") d.className,
   fun _ d => strHas (cs "question-title") d.className,
   fun _ d => strHas (cs "question-label") d.className,
   fun _ d => (attrOf d (cs "dcbshquestioncontent")).isSome,
   fun _ d => (classListOf d).contains (cs "dcb-course-lesson-questions-question-content"),
   fun _ d => [cs "h1", cs "h2", cs "h3", cs "h4", cs "h5", cs "h6"].contains d.tag,
   fun p d => d.tag == cs "p" && isFirstOfType dom p (cs "p"),
   fun p d => d.tag == cs "label" && isFirstOfType dom p (cs "label")]

/-- Try the method-1 selectors in order, returning the first cleaned
descendant text longer than 10 characters. -/
def m1Scan (dom : Dom) (cp : Path) : List (Path → ElemData → Bool) → Option Str
  | [] => none
  | s :: rest =>
    match selText dom cp (findDescWhere dom cp s) with
    | some t => some t
    | none => m1Scan dom cp rest

/-- Models `extractQuestionText` method 3: first trimmed line of the container's
raw text that is longer than 10 characters and does not look like an
answer. -/
def m3Text (dom : Dom) (cp : Path) : Option Str :=
  (((splitOnChar '\n' (textContent dom cp)).map jsTrim).filter (· ≠ [])).find?
    (fun l => 10 < l.length && !looksLikeAnswer l)

/-- Models `extractQuestionText` method 0: the first Docebo question-content
descendant's cleaned text with the `quiz N:` and `Question N of M` labels
stripped, when longer than 10 characters. -/
def m0Text (dom : Dom) (cp : Path) : Option Str :=
  match findDescWhere dom cp (fun _ d => isDoceboContent d) with
  | none => none
  | some p =>
    let t := cleanText (textContent dom p)
    let c1 := jsTrim (stripQuizLabel t)
    let c2 := jsTrim (stripQOfLabel c1)
    if c2 ≠ [] ∧ 10 < c2.length then some c2 else none

/-- Models `extractQuestionText` method 2: the text before the first selectable
input, when longer than 10 characters. -/
def m2Text (dom : Dom) (cp : Path) : Option Str :=
  match (inputsIn dom cp).head? with
  | some fi =>
    let tb := getTextBeforeElement dom cp fi
    if 10 < tb.length then some tb else none
  | none => none

/-- Models `extractQuestionText` (source lines 592-655): Docebo content with
label prefixes stripped, then keyword-class / heading / first-paragraph /
first-label descendants, then the text before the first input, then the
first line that does not look like an answer; every method requires
length > 10 after cleaning. -/
def extractQuestionText (dom : Dom) (cp : Path) : Option Str :=
  match m0Text dom cp with
  | some r => some r
  | none =>
    match m1Scan dom cp (m1Selectors dom) with
    | some r => some r
    | none =>
      match m2Text dom cp with
      | some r => some r
      | none => m3Text dom cp

/-- Models `extractQuestionData` (source lines 552-587): require a question text
and at least two answers, reject a question text that equals one of its
own answers case-insensitively after trimming, and return the record with
the trimmed question text and null number fields. -/
def extractQuestionData (dom : Dom) (cp : Path) : Option Question :=
  match elemAt dom cp with
  | none => none
  | some _ =>
    match extractQuestionText dom cp with
    | none => none
    | some qt =>
      if qt = [] ∨ (extractAnswers dom cp).length < 2 then none
      else
        let answers := extractAnswers dom cp
        let qtl := jsTrim (lower qt)
        if answers.any (fun a => jsTrim (lower a.text) == qtl) then none
        else some { element := cp, questionText := jsTrim qt, answers := answers,
                    questionNumber := none, totalQuestions := none }

/-! ## The strategy set -/

/-- The extra validation both Docebo blocks run on an extracted record:
reject an answer-list-like text (≤ 5 tokens, no `?`, no interrogative
keyword), a text overlapping two of its own answers' 10-character
heads, and a short answer-like text (< 20 characters, no `?`, no short
interrogative keyword). -/
def doceboValidateQ (dom : Dom) (cp : Path) : Option Question :=
  match extractQuestionData dom cp with
  | none => none
  | some q =>
    if 2 ≤ q.answers.length ∧ q.questionText ≠ [] then
      let qtl := lower q.questionText
      let isAnswerList := (jsSplitWs qtl).length ≤ 5 && !hasQMark qtl &&
        !hasKw kwFullList qtl
      let matchesMultipleAnswers :=
        2 ≤ (q.answers.filter (fun a => strHas ((lower a.text).take 10) qtl)).length
      let isLikelyAnswer := qtl.length < 20 && !hasQMark qtl && !hasKw kwShortList qtl
      if !isLikelyAnswer && !isAnswerList && !matchesMultipleAnswers then some q
      else none
    else none

/-- Docebo block A processing of one `[id^="dcb-sh-question-"]` container
(source lines 96-165). -/
def doceboCandidateA (dom : Dom) (cp : Path) : Option Question :=
  let questionDivs := doceboContentIn dom cp
  let inputs := inputsIn dom cp
  if 1 < questionDivs.length then none
  else if 10 < inputs.length then none
  else if questionDivs ≠ [] ∧ 2 ≤ inputs.length then doceboValidateQ dom cp
  else none

/-- The `[id^="dcb-sh-question-"]` containers of the document. -/
def doceboIdContainers (dom : Dom) : List Path :=
  (docElems dom).filterMap (fun pd =>
    if strStarts (cs "dcb-sh-question-") pd.2.idStr then some pd.1 else none)

/-- Docebo block A: fold over the id-pattern containers with the
already-claimed-container set. -/
def doceboBlockA (dom : Dom) : List Path → List Path → List Question
  | [], _ => []
  | p :: rest, processed =>
    if processed.contains p then doceboBlockA dom rest processed
    else
      match doceboCandidateA dom p with
      | some q => q :: doceboBlockA dom rest (p :: processed)
      | none => doceboBlockA dom rest processed

/-- Order-preserving removal of duplicate paths (`[...new Set(xs)]`). -/
def dedupPaths : List Path → List Path → List Path
  | [], _ => []
  | p :: t, seen =>
    if seen.contains p then dedupPaths t seen else p :: dedupPaths t (p :: seen)

/-- Docebo block B's content-div collection (source lines 172-194): each
selector's results replace the previous ones when non-empty, so the last
non-empty selector wins. -/
def doceboContentDivs (dom : Dom) : List Path :=
  let bySel (f : ElemData → Bool) : List Path :=
    (docElems dom).filterMap (fun pd => if f pd.2 then some pd.1 else none)
  let s1 := bySel (fun d => (attrOf d (cs "dcbshquestioncontent")).isSome)
  let s2 := bySel (fun d =>
    (classListOf d).contains (cs "dcb-course-lesson-questions-question-content"))
  let s3 := bySel (fun d => strHas (cs "dcb-course-lesson-questions-question") d.className)
  let s4 := bySel (fun d => strHas (cs "dcb") d.className && strHas (cs "question") d.className)
  if s4 ≠ [] then s4 else if s3 ≠ [] then s3 else if s2 ≠ [] then s2
  else if s1 ≠ [] then s1 else []

/-- The depth-bounded parent walk of Docebo block B (source lines
216-234): at most 5 ancestors are examined; an ancestor holding more than
one question-content div aborts the walk, one holding 2–10 selectable
inputs is accepted. -/
def doceboParentWalk (dom : Dom) : Nat → Option Path → Option Path
  | _, none => none
  | 0, some _ => none
  | Nat.succ fuel, some pp =>
    if 1 < (doceboContentIn dom pp).length then none
    else if 2 ≤ (inputsIn dom pp).length ∧ (inputsIn dom pp).length ≤ 10 then some pp
    else doceboParentWalk dom fuel (parentPath pp)

/-- Docebo block B container resolution for one content div (source lines
210-243): `closest('[id^="dcb-sh-question-"]')`, then the bounded parent
walk, then the div itself when it holds 2–10 inputs. -/
def doceboResolve (dom : Dom) (e : Path) : Option Path :=
  match (upChain e).find? (fun q =>
    match elemAt dom q with
    | some d => strStarts (cs "dcb-sh-question-") d.idStr
    | none => false) with
  | some c => some c
  | none =>
    match doceboParentWalk dom 5 (parentPath e) with
    | some c => some c
    | none =>
      if 2 ≤ (inputsIn dom e).length ∧ (inputsIn dom e).length ≤ 10 then some e else none

/-- Docebo block B processing of one resolved container (source lines
245-308). -/
def doceboCandidateB (dom : Dom) (c : Path) : Option Question :=
  let inputs := inputsIn dom c
  let questionDivs := doceboContentIn dom c
  if 1 < questionDivs.length then none
  else if 10 < inputs.length then none
  else if 2 ≤ inputs.length then doceboValidateQ dom c
  else none

/-- Docebo block B: fold over the content divs with the
already-claimed-container set. -/
def doceboBlockB (dom : Dom) : List Path → List Path → List Question
  | [], _ => []
  | cd :: rest, processed =>
    match doceboResolve dom cd with
    | none => doceboBlockB dom rest processed
    | some c =>
      if processed.contains c then doceboBlockB dom rest processed
      else
        match doceboCandidateB dom c with
        | some q => q :: doceboBlockB dom rest (c :: processed)
        | none => doceboBlockB dom rest processed

/-- Strategy 1: `detectByDoceboStructure` (source lines 66-316). -/
def detectByDoceboStructure (dom : Dom) : List Question :=
  let a := doceboBlockA dom (doceboIdContainers dom) []
  a ++ doceboBlockB dom (dedupPaths (doceboContentDivs dom) []) (a.map (·.element))

/-- The nodes a `SHOW_TEXT | SHOW_ELEMENT` tree walker rooted at the body
yields: every node except the body itself, in document order. -/
def walkerNodes (dom : Dom) : List Path :=
  (dom.filter (fun e => !(e.path == ([] : Path)))).map (·.path)

/-- Strategy 2: `detectByQuestionNumberPattern` (source lines 322-352):
for every node whose text matches `Question N of M`, resolve the
container, extract, and overwrite the number fields with N and M. -/
def detectByQuestionNumberPattern (dom : Dom) : List Question :=
  (walkerNodes dom).filterMap (fun p =>
    match firstQMatch (textContent dom p) with
    | none => none
    | some nm =>
      match findQuestionContainer dom p with
      | none => none
      | some c =>
        match extractQuestionData dom c with
        | none => none
        | some q => some { q with questionNumber := some nm.1,
                                  totalQuestions := some nm.2 })

/-- Register one more input under its container, preserving the map's
key insertion order. -/
def addGroup (k : Path) : List (Path × Nat) → List (Path × Nat)
  | [] => [(k, 1)]
  | (k', n) :: rest => if k' = k then (k', n + 1) :: rest else (k', n) :: addGroup k rest

/-- Group the document's selectable inputs by resolved container. -/
def groupContainers (dom : Dom) : List Path → List (Path × Nat) → List (Path × Nat)
  | [], acc => acc
  | ip :: rest, acc =>
    match findQuestionContainer dom ip with
    | some c => groupContainers dom rest (addGroup c acc)
    | none => groupContainers dom rest acc

/-- All selectable inputs of the document, in document order. -/
def docInputs (dom : Dom) : List Path :=
  (docElems dom).filterMap (fun pd =>
    if isSelectableInput pd.2 then some pd.1 else none)

/-- Strategy 3: `detectByCheckboxGrouping` (source lines 358-387). -/
def detectByCheckboxGrouping (dom : Dom) : List Question :=
  (groupContainers dom (docInputs dom) []).filterMap (fun cn =>
    if 2 ≤ cn.2 then
      match extractQuestionData dom cn.1 with
      | some q => if 2 ≤ q.answers.length then some q else none
      | none => none
    else none)

/-- Register one more radio under its group name, preserving the map's
key insertion order. -/
def addNamed (k : Str) (p : Path) : List (Str × List Path) → List (Str × List Path)
  | [] => [(k, [p])]
  | (k', ps) :: rest =>
    if k' = k then (k', ps ++ [p]) :: rest else (k', ps) :: addNamed k p rest

/-- Group the document's radios by their non-empty `name` attribute. -/
def groupRadios (dom : Dom) : List (Path × ElemData) → List (Str × List Path) → List (Str × List Path)
  | [], acc => acc
  | pd :: rest, acc =>
    match attrOf pd.2 (cs "name") with
    | some n =>
      if n ≠ [] then groupRadios dom rest (addNamed n pd.1 acc)
      else groupRadios dom rest acc
    | none => groupRadios dom rest acc

/-- All radio inputs of the document, in document order. -/
def docRadios (dom : Dom) : List (Path × ElemData) :=
  (docElems dom).filter (fun pd =>
    pd.2.tag == cs "input" && attrOf pd.2 (cs "type") == some (cs "radio"))

/-- Strategy 4: `detectByRadioGrouping` (source lines 392-419). -/
def detectByRadioGrouping (dom : Dom) : List Question :=
  (groupRadios dom (docRadios dom) []).filterMap (fun g =>
    if 2 ≤ g.2.length then
      match g.2.head? with
      | some r0 =>
        match findQuestionContainer dom r0 with
        | some c => extractQuestionData dom c
        | none => none
      | none => none
    else none)

/-- One `querySelectorAll` pass of strategies 5 and 6: extract from every
matching element and keep records with at least two answers. -/
def selPass (dom : Dom) (f : ElemData → Bool) : List Question :=
  ((docElems dom).filter (fun pd => f pd.2)).filterMap (fun pd =>
    match extractQuestionData dom pd.1 with
    | some q => if 2 ≤ q.answers.length then some q else none
    | none => none)

/-- Strategy 5: `detectBySemanticHTML` (source lines 424-459). -/
def detectBySemanticHTML (dom : Dom) : List Question :=
  selPass dom (fun d => d.tag == cs "fieldset") ++
  selPass dom (fun d => strHas (cs "question") d.className) ++
  selPass dom (fun d => strHas (cs "quiz-item") d.className) ++
  selPass dom (fun d => strHas (cs "quiz-question") d.className) ++
  selPass dom (fun d => strHas (cs "question") d.idStr) ++
  selPass dom (fun d => (attrOf d (cs "data-question")).isSome) ++
  selPass dom (fun d => (attrOf d (cs "data-quiz-item")).isSome)

/-- Strategy 6: `detectByDataAttributes` (source lines 464-488). -/
def detectByDataAttributes (dom : Dom) : List Question :=
  selPass dom (fun d => (attrOf d (cs "data-question-id")).isSome) ++
  selPass dom (fun d => (attrOf d (cs "data-quiz-question")).isSome) ++
  selPass dom (fun d =>
    match attrOf d (cs "data-testid") with
    | some v => strHas (cs "question") v
    | none => false) ++
  selPass dom (fun d =>
    match attrOf d (cs "data-cy") with
    | some v => strHas (cs "question") v
    | none => false)

/-! ## The dispatcher and the deduplicator -/

/-- The concatenation of the six strategies' outputs in the fixed
priority order of the constructor's strategy table. -/
def strategyStream (dom : Dom) : List Question :=
  detectByDoceboStructure dom ++ detectByQuestionNumberPattern dom ++
  detectByCheckboxGrouping dom ++ detectByRadioGrouping dom ++
  detectBySemanticHTML dom ++ detectByDataAttributes dom

/-- The `processedElements` weak-set filter of `detectQuestions` (source
lines 44-56): keep the first record per container element. -/
def dedupeByElement : List Question → List Path → List Question
  | [], _ => []
  | q :: qs, seen =>
    if seen.contains q.element then dedupeByElement qs seen
    else q :: dedupeByElement qs (q.element :: seen)

/-- The global set of normalized answer texts over all records (the
deduplicator's first pass). -/
def collectAnswerTexts (qs : List Question) : List Str :=
  qs.flatMap (fun q => q.answers.map (fun a => jsTrim (lower a.text)))

/-- A record's dedup key: normalized question text truncated to 50
characters. -/
def qKey (q : Question) : Str := (jsTrim (lower q.questionText)).take 50

/-- The deduplicator's second pass (source lines 817-849): skip on a
seen key, on a question text in the global answer-text set, on a short
non-question text, or on a text equal to one of the record's own answers;
otherwise keep the record and mark its key seen. -/
def dedupPass (ats : List Str) : List Question → List Str → List Question
  | [], _ => []
  | q :: qs, seen =>
    let qtl := jsTrim (lower q.questionText)
    if seen.contains (qtl.take 50) then dedupPass ats qs seen
    else if ats.contains qtl then dedupPass ats qs seen
    else if qtl.length < 15 && !hasQMark qtl && !hasKw kwShortList qtl then
      dedupPass ats qs seen
    else if q.answers.any (fun a => jsTrim (lower a.text) == qtl) then
      dedupPass ats qs seen
    else q :: dedupPass ats qs ((qtl.take 50) :: seen)

/-- Models `deduplicateQuestions` (source lines 804-852). -/
def deduplicateQuestions (qs : List Question) : List Question :=
  dedupPass (collectAnswerTexts qs) qs []

/-- Models `detectQuestions` (source lines 43-60): run every strategy in
priority order, keep the first record per container element, then
deduplicate. -/
def detectQuestions (dom : Dom) : List Question :=
  deduplicateQuestions (dedupeByElement (strategyStream dom) [])

/-- The detector's only cross-call instance state: the debug-logging
flag, which gates console output alone.  `detectQuestions` creates its
bookkeeping (`processedElements`, the dedup maps) fresh on every call and
writes no instance field. -/
structure Detector where
  debugLoggingEnabled : Bool
  deriving DecidableEq, Repr

/-- Models `detector.detectQuestions()` as a state-threading call: the result
list together with the detector state after the call. -/
def detectQuestionsS (d : Detector) (dom : Dom) : List Question × Detector :=
  (detectQuestions dom, d)

/-- The strategy loop of `detectQuestions` (source lines 48-56) over
strategies that may throw: `strategy.call(this)` is not wrapped in any
try/catch, so an exception propagates immediately. -/
def runStrategiesE : List (Dom → Except Str (List Question)) → Dom → Except Str (List Question)
  | [], _ => Except.ok []
  | s :: rest, dom =>
    match s dom with
    | Except.error e => Except.error e
    | Except.ok found =>
      match runStrategiesE rest dom with
      | Except.error e => Except.error e
      | Except.ok qs => Except.ok (found ++ qs)

/-- Models `detectQuestions` over throwing strategies. -/
def detectQuestionsE (strats : List (Dom → Except Str (List Question)))
    (dom : Dom) : Except Str (List Question) :=
  match runStrategiesE strats dom with
  | Except.error e => Except.error e
  | Except.ok qs => Except.ok (deduplicateQuestions (dedupeByElement qs []))

/-! ## Concrete snapshots used as witnesses and counterexamples -/

/-- Build an element entry. -/
def mkElem (p : Path) (tag idv clsv : String) (attrs : List (String × String)) : DomEntry :=
  { path := p,
    item := DomItem.elem
      { tag := cs tag, idStr := cs idv, className := cs clsv,
        attrs := attrs.map (fun kv => (cs kv.1, cs kv.2)),
        checked := false, value := [] } }

/-- Build a text-node entry. -/
def mkText (p : Path) (s : String) : DomEntry := { path := p, item := DomItem.text (cs s) }

/-- Build a selectable-input entry. -/
def mkInput (p : Path) (ty idv : String) (checked : Bool) (value : String) : DomEntry :=
  { path := p,
    item := DomItem.elem
      { tag := cs "input", idStr := cs idv, className := [],
        attrs := [(cs "type", cs ty)], checked := checked, value := cs value } }

/-- A Docebo-marked question container with the spec's France example:
question text "What is the capital of France?" and labelled checkbox
answers "Paris" (selected) and "Lyon". -/
def franceDom : Dom :=
  [mkElem [] "body" "" "" [],
   mkElem [0] "div" "dcb-sh-question-1-content" "" [],
   mkElem [0, 0] "div" "" "" [("dcbshquestioncontent", "")],
   mkText [0, 0, 0] "What is the capital of France?",
   mkInput [0, 1] "checkbox" "f1" true "paris",
   mkElem [0, 2] "label" "" "" [("for", "f1")],
   mkText [0, 2, 0] "Paris",
   mkInput [0, 3] "checkbox" "f2" false "lyon",
   mkElem [0, 4] "label" "" "" [("for", "f2")],
   mkText [0, 4, 0] "Lyon"]

/-- A non-Docebo container (class `card`) whose question text is the
spec's answer-list example "Subject Object Access permission" with two
checkbox answers "Subject" and "Object". -/
def subjObjDom : Dom :=
  [mkElem [] "body" "" "" [],
   mkElem [0] "div" "" "card" [],
   mkElem [0, 0] "p" "" "" [],
   mkText [0, 0, 0] "Subject Object Access permission",
   mkInput [0, 1] "checkbox" "i1" false "s",
   mkElem [0, 2] "label" "" "" [("for", "i1")],
   mkText [0, 2, 0] "Subject",
   mkInput [0, 3] "checkbox" "i2" false "o",
   mkElem [0, 4] "label" "" "" [("for", "i2")],
   mkText [0, 4, 0] "Object"]

/-- A container (class `question`) claimed both by the checkbox-grouping
strategy and the semantic strategy, whose 14-character question text the
deduplicator then drops. -/
def pickOneDom : Dom :=
  [mkElem [] "body" "" "" [],
   mkElem [0] "div" "" "question" [],
   mkElem [0, 0] "h3" "" "" [],
   mkText [0, 0, 0] "Pick one here.",
   mkInput [0, 1] "checkbox" "a1" false "x",
   mkElem [0, 2] "label" "" "" [("for", "a1")],
   mkText [0, 2, 0] "alpha",
   mkInput [0, 3] "checkbox" "a2" false "y",
   mkElem [0, 4] "label" "" "" [("for", "a2")],
   mkText [0, 4, 0] "beta"]

/-- A seed input nested six levels below the nearest likely container
(class `card`): `findQuestionContainer` still returns that container. -/
def deepDom : Dom :=
  [mkElem [] "body" "" "" [],
   mkElem [0] "div" "" "card" [],
   mkElem [0, 0] "div" "" "" [],
   mkElem [0, 0, 0] "div" "" "" [],
   mkElem [0, 0, 0, 0] "div" "" "" [],
   mkElem [0, 0, 0, 0, 0] "div" "" "" [],
   mkElem [0, 0, 0, 0, 0, 0] "div" "" "" [],
   mkInput [0, 0, 0, 0, 0, 0, 0] "checkbox" "z1" false "v"]

/-- A container holding a "Question 2 of 10 (required)" phrase, a heading
question text and two labelled checkbox answers: the numbered-phrase
strategy claims it first. -/
def numberedDom : Dom :=
  [mkElem [] "body" "" "" [],
   mkElem [0] "div" "" "panel" [],
   mkElem [0, 0] "div" "" "" [],
   mkText [0, 0, 0] "Question 2 of 10 (required)",
   mkElem [0, 1] "h4" "" "" [],
   mkText [0, 1, 0] "Which color is the sky today?",
   mkInput [0, 2] "checkbox" "n1" false "r",
   mkElem [0, 3] "label" "" "" [("for", "n1")],
   mkText [0, 3, 0] "Red",
   mkInput [0, 4] "checkbox" "n2" false "b",
   mkElem [0, 5] "label" "" "" [("for", "n2")],
   mkText [0, 5, 0] "Blue"]

/-- The record `detectQuestions` returns on `franceDom`. -/
def franceQ : Question :=
  { element := [0], questionText := cs "What is the capital of France?",
    answers :=
      [{ element := [0, 1], text := cs "Paris", isSelected := true, value := cs "paris" },
       { element := [0, 3], text := cs "Lyon", isSelected := false, value := cs "lyon" }],
    questionNumber := none, totalQuestions := none }

/-- The record `detectQuestions` returns on `subjObjDom`. -/
def subjObjQ : Question :=
  { element := [0], questionText := cs "Subject Object Access permission",
    answers :=
      [{ element := [0, 1], text := cs "Subject", isSelected := false, value := cs "s" },
       { element := [0, 3], text := cs "Object", isSelected := false, value := cs "o" }],
    questionNumber := none, totalQuestions := none }

/-- The record `detectQuestions` returns on `numberedDom`. -/
def numberedQ : Question :=
  { element := [0], questionText := cs "Which color is the sky today?",
    answers :=
      [{ element := [0, 2], text := cs "Red", isSelected := false, value := cs "r" },
       { element := [0, 4], text := cs "Blue", isSelected := false, value := cs "b" }],
    questionNumber := some 2, totalQuestions := some 10 }

/-- A well-formed record used to exercise the throwing-strategy model. -/
def okQ : Question :=
  { element := [7], questionText := cs "Which one of these is right?",
    answers :=
      [{ element := [7, 0], text := cs "aa", isSelected := false, value := cs "aa" },
       { element := [7, 1], text := cs "bb", isSelected := false, value := cs "bb" }],
    questionNumber := none, totalQuestions := none }

/-- A strategy that throws during its tree search. -/
def boomStrategy : Dom → Except Str (List Question) :=
  fun _ => Except.error (cs "boom")

/-- A strategy that returns one well-formed record. -/
def okStrategy : Dom → Except Str (List Question) :=
  fun _ => Except.ok [okQ]

/-! ## Lemmas: the deduplication passes -/

theorem dedupPass_sublist (ats : List Str) (qs : List Question) :
    ∀ seen, (dedupPass ats qs seen).Sublist qs := by
  induction qs with
  | nil => intro seen; simp [dedupPass]
  | cons q qs ih =>
    intro seen
    simp only [dedupPass]
    split
    · exact (ih seen).cons q
    · split
      · exact (ih seen).cons q
      · split
        · exact (ih seen).cons q
        · split
          · exact (ih seen).cons q
          · exact (ih _).cons₂ q

theorem dedupeByElement_sublist (qs : List Question) :
    ∀ seen, (dedupeByElement qs seen).Sublist qs := by
  induction qs with
  | nil => intro seen; simp [dedupeByElement]
  | cons q qs ih =>
    intro seen
    simp only [dedupeByElement]
    split
    · exact (ih seen).cons q
    · exact (ih _).cons₂ q

theorem mem_dedupeByElement (qs : List Question) :
    ∀ (seen : List Path) (q : Question), q ∈ dedupeByElement qs seen →
      ¬ q.element ∈ seen ∧ qs.find? (fun r => r.element == q.element) = some q := by
  induction qs with
  | nil => intro seen q hq; simp [dedupeByElement] at hq
  | cons r qs ih =>
    intro seen q hq
    simp only [dedupeByElement] at hq
    by_cases hc : seen.contains r.element
    · rw [if_pos hc] at hq
      obtain ⟨hns, hfind⟩ := ih seen q hq
      refine ⟨hns, ?_⟩
      have hne : (r.element == q.element) = false := by
        by_contra hcon
        have h1 : r.element = q.element := by
          cases h2 : (r.element == q.element) with
          | false => exact absurd h2 hcon
          | true => exact eq_of_beq h2
        exact hns (h1 ▸ (List.elem_iff.mp hc))
      rw [List.find?_cons_of_neg _ (by simp [hne]), hfind]
    · rw [if_neg hc] at hq
      rcases List.mem_cons.mp hq with hq | hq
      · subst hq
        refine ⟨fun h => hc (List.elem_iff.mpr h), ?_⟩
        rw [List.find?_cons_of_pos _ (by simp)]
      · obtain ⟨hns, hfind⟩ := ih (r.element :: seen) q hq
        have hne : ¬ q.element = r.element := fun h => hns (h ▸ List.mem_cons_self _ _)
        refine ⟨fun h => hns (List.mem_cons_of_mem _ h), ?_⟩
        rw [List.find?_cons_of_neg _ (by simp; exact fun h => hne h.symm), hfind]

theorem dedupeByElement_pairwise (qs : List Question) :
    ∀ seen, (dedupeByElement qs seen).Pairwise (fun a b => a.element ≠ b.element) := by
  induction qs with
  | nil => intro seen; simp [dedupeByElement]
  | cons r qs ih =>
    intro seen
    simp only [dedupeByElement]
    split
    · exact ih seen
    · refine List.Pairwise.cons ?_ (ih _)
      intro b hb h
      have := (mem_dedupeByElement qs _ b hb).1
      exact this (h ▸ List.mem_cons_self _ _)

/-- C10: `deduplicateQuestions` returns an order-preserving subsequence
of its input — it never reorders records, never duplicates a record, and
never introduces a record that was not in the input. -/
theorem deduplicateQuestions_sublist (qs : List Question) :
    (deduplicateQuestions qs).Sublist qs :=
  dedupPass_sublist (collectAnswerTexts qs) qs []

/-! ## Lemmas: strings -/

theorem dropWhile_head_not {p : Char → Bool} :
    ∀ {l t : Str} {c : Char}, l.dropWhile p = c :: t → p c = false := by
  intro l
  induction l with
  | nil => intro t c h; simp [List.dropWhile] at h
  | cons a l ih =>
    intro t c h
    rw [List.dropWhile_cons] at h
    by_cases hp : p a
    · rw [if_pos hp] at h; exact ih h
    · rw [if_neg hp] at h
      cases h
      simpa using hp

theorem dropWhile_suffix_ex (p : Char → Bool) (l : Str) :
    ∃ t, l = t ++ l.dropWhile p := by
  induction l with
  | nil => exact ⟨[], rfl⟩
  | cons a l ih =>
    rw [List.dropWhile_cons]
    by_cases hp : p a
    · rw [if_pos hp]
      obtain ⟨t, ht⟩ := ih
      exact ⟨a :: t, by rw [List.cons_append, ← ht]⟩
    · rw [if_neg hp]; exact ⟨[], rfl⟩

theorem getLast?_dropWhile (p : Char → Bool) (l : Str)
    (h : l.dropWhile p ≠ []) : (l.dropWhile p).getLast? = l.getLast? := by
  obtain ⟨t, ht⟩ := dropWhile_suffix_ex p l
  conv_rhs => rw [ht]
  rw [List.getLast?_append_of_ne_nil t h]

/-- A string neither starts nor ends with whitespace. -/
def nonWsEnds (l : Str) : Prop :=
  (∀ c, l.head? = some c → isWs c = false) ∧
  (∀ c, l.getLast? = some c → isWs c = false)

theorem jsTrim_fix {l : Str} (h : nonWsEnds l) : jsTrim l = l := by
  obtain ⟨h1, h2⟩ := h
  have e1 : l.dropWhile isWs = l := by
    cases l with
    | nil => rfl
    | cons c t =>
      rw [List.dropWhile_cons, if_neg]
      simp [h1 c rfl]
  rw [jsTrim, e1]
  have e2 : l.reverse.dropWhile isWs = l.reverse := by
    cases hr : l.reverse with
    | nil => rfl
    | cons c t =>
      rw [List.dropWhile_cons, if_neg]
      have hc : l.getLast? = some c := by
        rw [← List.head?_reverse, hr]; rfl
      simp [h2 c hc]
  rw [e2, List.reverse_reverse]

theorem nonWsEnds_jsTrim (l : Str) : nonWsEnds (jsTrim l) := by
  rw [jsTrim]
  constructor
  · intro c hc
    rw [List.head?_reverse] at hc
    have hbne : (l.dropWhile isWs).reverse.dropWhile isWs ≠ [] := by
      intro h; rw [h] at hc; simp at hc
    rw [getLast?_dropWhile _ _ hbne, List.getLast?_reverse] at hc
    cases hA : l.dropWhile isWs with
    | nil => rw [hA] at hc; simp at hc
    | cons x t =>
      rw [hA] at hc
      simp only [List.head?_cons, Option.some.injEq] at hc
      subst hc
      exact dropWhile_head_not hA
  · intro c hc
    rw [List.getLast?_reverse] at hc
    cases hB : (l.dropWhile isWs).reverse.dropWhile isWs with
    | nil => rw [hB] at hc; simp at hc
    | cons x t =>
      rw [hB] at hc
      simp only [List.head?_cons, Option.some.injEq] at hc
      subst hc
      exact dropWhile_head_not hB

theorem jsTrim_idem (l : Str) : jsTrim (jsTrim l) = jsTrim l :=
  jsTrim_fix (nonWsEnds_jsTrim l)

theorem trimmed_head_not_ws {l : Str} (hfix : jsTrim l = l) :
    ∀ c, l.head? = some c → isWs c = false := by
  have h := (nonWsEnds_jsTrim l).1
  rw [hfix] at h
  exact h

theorem charSplitWs_no_ws :
    ∀ (l : Str) (w : Str), w ∈ charSplitWs l → ∀ c ∈ w, isWs c = false := by
  intro l
  induction l with
  | nil =>
    intro w hw c hc
    simp only [charSplitWs, List.mem_singleton] at hw
    subst hw; simp at hc
  | cons a t ih =>
    intro w hw c hc
    simp only [charSplitWs] at hw
    by_cases hws : isWs a
    · rw [if_pos hws] at hw
      rcases List.mem_cons.mp hw with h | h
      · subst h; simp at hc
      · exact ih w h c hc
    · rw [if_neg hws] at hw
      cases hsp : charSplitWs t with
      | nil =>
        rw [hsp] at hw
        simp only [List.mem_singleton] at hw
        subst hw
        rcases List.mem_cons.mp hc with h' | h'
        · subst h'; simpa using hws
        · simp at h'
      | cons w0 ws =>
        rw [hsp] at hw
        rcases List.mem_cons.mp hw with h | h
        · subst h
          rcases List.mem_cons.mp hc with h' | h'
          · subst h'; simpa using hws
          · exact ih w0 (hsp ▸ List.mem_cons_self w0 ws) c h'
        · exact ih w (hsp ▸ List.mem_cons_of_mem w0 h) c hc

theorem wordsOf_spec (l : Str) :
    ∀ w ∈ wordsOf l, w ≠ [] ∧ ∀ c ∈ w, isWs c = false := by
  intro w hw
  rw [wordsOf, List.mem_filter] at hw
  exact ⟨by simpa using hw.2, charSplitWs_no_ws l w hw.1⟩

theorem nonWsEnds_of_all {w : Str} (h : ∀ c ∈ w, isWs c = false) : nonWsEnds w :=
  ⟨fun c hc => h c (List.mem_of_mem_head? hc),
   fun c hc => h c (List.mem_of_mem_getLast? hc)⟩

theorem joinSp_ne_nil : ∀ (w : Str) (ps : List Str), w ≠ [] → joinSp (w :: ps) ≠ [] := by
  intro w ps hw
  cases ps with
  | nil => simpa [joinSp] using hw
  | cons p ps => simp [joinSp]

theorem joinSp_nonWsEnds :
    ∀ (ps : List Str), (∀ w ∈ ps, w ≠ [] ∧ nonWsEnds w) → nonWsEnds (joinSp ps) := by
  intro ps
  induction ps with
  | nil => intro _; exact ⟨by simp [joinSp], by simp [joinSp]⟩
  | cons w ps ih =>
    intro h
    cases ps with
    | nil =>
      have := (h w (List.mem_cons_self w [])).2
      simpa [joinSp] using this
    | cons w2 ps2 =>
      obtain ⟨hwne, hw1, hw2⟩ :
          w ≠ [] ∧ (∀ c, w.head? = some c → isWs c = false) ∧
            (∀ c, w.getLast? = some c → isWs c = false) := by
        obtain ⟨a, b, c⟩ := h w (List.mem_cons_self w (w2 :: ps2))
        exact ⟨a, b, c⟩
      have hrest := ih (fun x hx => h x (List.mem_cons_of_mem w hx))
      have hrestne : joinSp (w2 :: ps2) ≠ [] :=
        joinSp_ne_nil w2 ps2 (h w2 (List.mem_cons_of_mem w (List.mem_cons_self w2 ps2))).1
      have heq : joinSp (w :: w2 :: ps2) = w ++ ' ' :: joinSp (w2 :: ps2) := rfl
      constructor
      · intro c hc
        rw [heq] at hc
        cases w with
        | nil => exact absurd rfl hwne
        | cons x xs =>
          simp only [List.cons_append, List.head?_cons, Option.some.injEq] at hc
          subst hc
          exact hw1 _ rfl
      · intro c hc
        rw [heq, List.getLast?_append_of_ne_nil w (by simp)] at hc
        have : (' ' :: joinSp (w2 :: ps2)).getLast? = (joinSp (w2 :: ps2)).getLast? := by
          have h2 : (' ' :: joinSp (w2 :: ps2)) = [' '] ++ joinSp (w2 :: ps2) := rfl
          rw [h2, List.getLast?_append_of_ne_nil [' '] hrestne]
        rw [this] at hc
        exact hrest.2 c hc

theorem nonWsEnds_cleanText (l : Str) : nonWsEnds (cleanText l) :=
  joinSp_nonWsEnds (wordsOf l) (fun w hw =>
    ⟨(wordsOf_spec l w hw).1, nonWsEnds_of_all (wordsOf_spec l w hw).2⟩)

theorem jsTrim_cleanText (l : Str) : jsTrim (cleanText l) = cleanText l :=
  jsTrim_fix (nonWsEnds_cleanText l)

theorem cleanText_cons_ne_nil {c : Char} (t : Str) (hc : isWs c = false) :
    cleanText (c :: t) ≠ [] := by
  rw [cleanText, wordsOf]
  simp only [charSplitWs, if_neg (by simp [hc] : ¬ isWs c = true)]
  cases hsp : charSplitWs t with
  | nil => simp [joinSp]
  | cons w ws =>
    simp only [List.filter_cons]
    rw [if_pos (by simp)]
    exact joinSp_ne_nil (c :: w) _ (by simp)

theorem cleanText_ne_nil_of_trimmed {l : Str} (hfix : jsTrim l = l) (hne : l ≠ []) :
    cleanText l ≠ [] := by
  cases l with
  | nil => exact absurd rfl hne
  | cons c t => exact cleanText_cons_ne_nil t (trimmed_head_not_ws hfix c rfl)

/-! ## Lemmas: field extraction -/

theorem getTextBefore_nonWsEnds (dom : Dom) (cp ep : Path) :
    nonWsEnds (getTextBeforeElement dom cp ep) := by
  rw [getTextBeforeElement]
  apply joinSp_nonWsEnds
  intro w hw
  rw [List.mem_filterMap] at hw
  obtain ⟨ts, _, hts⟩ := hw
  simp only at hts
  split at hts
  next => simp at hts
  next hne =>
    simp only [Option.some.injEq] at hts
    subst hts
    exact ⟨hne, nonWsEnds_cleanText ts.2⟩

theorem m1Scan_shape (dom : Dom) (cp : Path) :
    ∀ (sels : List (Path → ElemData → Bool)) (s : Str), m1Scan dom cp sels = some s →
      (∃ p, s = cleanText (textContent dom p)) ∧ 10 < s.length := by
  intro sels
  induction sels with
  | nil => intro s h; simp [m1Scan] at h
  | cons f rest ih =>
    intro s h
    rw [m1Scan] at h
    cases hsel : selText dom cp (findDescWhere dom cp f) with
    | some t =>
      rw [hsel] at h
      simp only [Option.some.injEq] at h
      subst h
      cases hfd : findDescWhere dom cp f with
      | none => rw [hfd] at hsel; simp [selText] at hsel
      | some p =>
        rw [hfd] at hsel
        simp only [selText] at hsel
        split at hsel
        next hlen =>
          simp only [Option.some.injEq] at hsel
          subst hsel
          exact ⟨⟨p, rfl⟩, hlen⟩
        next => simp at hsel
    | none => rw [hsel] at h; exact ih s h

theorem m3Text_shape (dom : Dom) (cp : Path) (s : Str)
    (h : m3Text dom cp = some s) : (∃ y, s = jsTrim y) ∧ 10 < s.length := by
  rw [m3Text] at h
  have hmem := List.mem_of_find?_eq_some h
  have hpred := List.find?_some h
  rw [List.mem_filter] at hmem
  obtain ⟨hm, _⟩ := hmem
  rw [List.mem_map] at hm
  obtain ⟨y, _, hy⟩ := hm
  refine ⟨⟨y, hy.symm⟩, ?_⟩
  have hsplit := (Bool.and_eq_true _ _).mp hpred
  exact of_decide_eq_true hsplit.1

theorem m0Text_shape (dom : Dom) (cp : Path) (s : Str)
    (h : m0Text dom cp = some s) : (∃ y, s = jsTrim y) ∧ 10 < s.length := by
  rw [m0Text] at h
  cases hfd : findDescWhere dom cp (fun _ d => isDoceboContent d) with
  | none => rw [hfd] at h; simp at h
  | some p =>
    rw [hfd] at h
    simp only at h
    split at h
    next hcond =>
      simp only [Option.some.injEq] at h
      subst h
      exact ⟨⟨_, rfl⟩, hcond.2⟩
    next => simp at h

theorem m2Text_shape (dom : Dom) (cp : Path) (s : Str)
    (h : m2Text dom cp = some s) : nonWsEnds s ∧ 10 < s.length := by
  rw [m2Text] at h
  cases hh : (inputsIn dom cp).head? with
  | none => rw [hh] at h; simp at h
  | some fi =>
    rw [hh] at h
    simp only at h
    split at h
    next hcond =>
      simp only [Option.some.injEq] at h
      subst h
      exact ⟨getTextBefore_nonWsEnds dom cp fi, hcond⟩
    next => simp at h

theorem extractQuestionText_shape (dom : Dom) (cp : Path) (s : Str)
    (h : extractQuestionText dom cp = some s) :
    jsTrim s = s ∧ 10 < s.length ∧ s ≠ [] ∧ cleanText s ≠ [] := by
  have main : jsTrim s = s ∧ 10 < s.length := by
    rw [extractQuestionText] at h
    cases h0 : m0Text dom cp with
    | some r =>
      rw [h0] at h
      simp only [Option.some.injEq] at h
      subst h
      obtain ⟨⟨y, hy⟩, hl⟩ := m0Text_shape dom cp _ h0
      exact ⟨by rw [hy, jsTrim_idem], hl⟩
    | none =>
      rw [h0] at h
      cases h1 : m1Scan dom cp (m1Selectors dom) with
      | some r =>
        rw [h1] at h
        simp only [Option.some.injEq] at h
        subst h
        obtain ⟨⟨p, hp⟩, hl⟩ := m1Scan_shape dom cp (m1Selectors dom) _ h1
        exact ⟨by rw [hp, jsTrim_cleanText], hl⟩
      | none =>
        rw [h1] at h
        cases h2 : m2Text dom cp with
        | some r =>
          rw [h2] at h
          simp only [Option.some.injEq] at h
          subst h
          obtain ⟨hends, hl⟩ := m2Text_shape dom cp _ h2
          exact ⟨jsTrim_fix hends, hl⟩
        | none =>
          rw [h2] at h
          obtain ⟨⟨y, hy⟩, hl⟩ := m3Text_shape dom cp _ h
          exact ⟨by rw [hy, jsTrim_idem], hl⟩
  have hne : s ≠ [] := by
    intro he
    rw [he] at main
    simp at main
  exact ⟨main.1, main.2, hne, cleanText_ne_nil_of_trimmed main.1 hne⟩

theorem answerFor_spec {dom : Dom} {ip : Path} {a : Answer}
    (h : answerFor dom ip = some a) :
    a.element = ip ∧ jsTrim a.text = a.text ∧ 2 ≤ a.text.length ∧ a.text ≠ [] ∧
    cleanText a.text ≠ [] ∧ lower a.text ≠ cs "null" ∧
    strHas (cs "terminate the subscription") (lower a.text) = false ∧
    strHas (cs "renew the subscription") (lower a.text) = false := by
  rw [answerFor] at h
  split at h
  next => simp at h
  next =>
    split at h
    next => simp at h
    next hguard =>
      simp only [Option.some.injEq] at h
      subst h
      simp only [Bool.or_eq_true, decide_eq_true_eq, not_or] at hguard
      obtain ⟨⟨⟨⟨hnull, hnil⟩, hjunk1⟩, hjunk2⟩, hlen⟩ := hguard
      have hlen2 : 2 ≤ (jsTrim (getAnswerText dom ip)).length := by omega
      refine ⟨rfl, jsTrim_idem _, hlen2, ?_, ?_, ?_, ?_, ?_⟩
      · intro he
        simp only at he
        rw [he] at hlen2
        simp at hlen2
      · exact cleanText_ne_nil_of_trimmed (jsTrim_idem _) (by
          intro he
          simp only at he
          rw [he] at hlen2
          simp at hlen2)
      · intro he
        exact hnull (by simp [he])
      · rw [← Bool.not_eq_true]
        exact hjunk1
      · rw [← Bool.not_eq_true]
        exact hjunk2

theorem extractAnswers_inv (dom : Dom) (cp : Path) :
    ∀ a ∈ extractAnswers dom cp,
      jsTrim a.text = a.text ∧ 2 ≤ a.text.length ∧ a.text ≠ [] ∧
      cleanText a.text ≠ [] ∧ lower a.text ≠ cs "null" ∧
      strHas (cs "terminate the subscription") (lower a.text) = false ∧
      strHas (cs "renew the subscription") (lower a.text) = false := by
  intro a ha
  rw [extractAnswers, List.mem_filterMap] at ha
  obtain ⟨ip, _, h⟩ := ha
  exact (answerFor_spec h).2

theorem extractAnswers_drop (dom : Dom) (cp ip : Path)
    (_hip : ip ∈ inputsIn dom cp) (hbad : answerFor dom ip = none) :
    ∀ a ∈ extractAnswers dom cp, a.element ≠ ip := by
  intro a ha heq
  rw [extractAnswers, List.mem_filterMap] at ha
  obtain ⟨ip2, _, h⟩ := ha
  have he : a.element = ip2 := (answerFor_spec h).1
  rw [heq] at he
  rw [← he] at h
  rw [h] at hbad
  exact Option.noConfusion hbad

theorem extractQuestionData_spec {dom : Dom} {cp : Path} {q : Question}
    (h : extractQuestionData dom cp = some q) :
    q.element = cp ∧ q.questionNumber = none ∧ q.totalQuestions = none ∧
    q.answers = extractAnswers dom cp ∧ 2 ≤ q.answers.length ∧
    jsTrim q.questionText = q.questionText ∧ 10 < q.questionText.length ∧
    cleanText q.questionText ≠ [] ∧
    ∀ a ∈ q.answers, jsTrim (lower q.questionText) ≠ jsTrim (lower a.text) := by
  rw [extractQuestionData] at h
  cases he : elemAt dom cp with
  | none => rw [he] at h; exact absurd h (by simp)
  | some d =>
    rw [he] at h
    cases ht : extractQuestionText dom cp with
    | none => rw [ht] at h; simp at h
    | some qt =>
      rw [ht] at h
      obtain ⟨htrim, hlen, hqne, hclean⟩ := extractQuestionText_shape dom cp qt ht
      simp only at h
      split at h
      next => simp at h
      next hguard =>
        push_neg at hguard
        split at h
        next => simp at h
        next hany =>
          simp only [Option.some.injEq] at h
          subst h
          refine ⟨rfl, rfl, rfl, rfl, ?_, ?_, ?_, ?_, ?_⟩
          · show 2 ≤ (extractAnswers dom cp).length
            have := hguard.2
            omega
          · show jsTrim (jsTrim qt) = jsTrim qt
            exact jsTrim_idem qt
          · show 10 < (jsTrim qt).length
            rw [htrim]; exact hlen
          · show cleanText (jsTrim qt) ≠ []
            rw [htrim]; exact hclean
          · show ∀ a ∈ extractAnswers dom cp,
              jsTrim (lower (jsTrim qt)) ≠ jsTrim (lower a.text)
            rw [htrim]
            intro a ha hne
            apply hany
            rw [List.any_eq_true]
            exact ⟨a, ha, by simp [hne]⟩

/-! ## Lemmas: the strategies -/

theorem doceboValidateQ_spec {dom : Dom} {cp : Path} {q : Question}
    (h : doceboValidateQ dom cp = some q) :
    extractQuestionData dom cp = some q ∧
    ¬ ((jsSplitWs (lower q.questionText)).length ≤ 5 ∧
       hasQMark (lower q.questionText) = false ∧
       hasKw kwFullList (lower q.questionText) = false) := by
  rw [doceboValidateQ] at h
  cases hx : extractQuestionData dom cp with
  | none => rw [hx] at h; simp at h
  | some q0 =>
    rw [hx] at h
    simp only at h
    split at h
    next =>
      split at h
      next hval =>
        simp only [Option.some.injEq] at h
        subst h
        refine ⟨rfl, ?_⟩
        rintro ⟨h1, h2, h3⟩
        simp only [Bool.and_eq_true, Bool.not_eq_true'] at hval
        have hB := hval.1.2
        simp [h1, h2, h3] at hB
      next => simp at h
    next => simp at h

theorem doceboCandidateA_spec {dom : Dom} {cp : Path} {q : Question}
    (h : doceboCandidateA dom cp = some q) : doceboValidateQ dom cp = some q := by
  rw [doceboCandidateA] at h
  split at h
  next => simp at h
  next =>
    split at h
    next => simp at h
    next =>
      split at h
      next => exact h
      next => simp at h

theorem doceboCandidateB_spec {dom : Dom} {cp : Path} {q : Question}
    (h : doceboCandidateB dom cp = some q) : doceboValidateQ dom cp = some q := by
  rw [doceboCandidateB] at h
  split at h
  next => simp at h
  next =>
    split at h
    next => simp at h
    next =>
      split at h
      next => exact h
      next => simp at h

theorem doceboBlockA_mem {dom : Dom} {q : Question} :
    ∀ (l processed : List Path), q ∈ doceboBlockA dom l processed →
      ∃ p, doceboCandidateA dom p = some q := by
  intro l
  induction l with
  | nil => intro processed h; simp [doceboBlockA] at h
  | cons p rest ih =>
    intro processed h
    rw [doceboBlockA] at h
    split at h
    · exact ih _ h
    · split at h
      next q0 heq =>
        rcases List.mem_cons.mp h with h | h
        · exact ⟨p, h ▸ heq⟩
        · exact ih _ h
      next => exact ih _ h

theorem doceboBlockB_mem {dom : Dom} {q : Question} :
    ∀ (l processed : List Path), q ∈ doceboBlockB dom l processed →
      ∃ c, doceboCandidateB dom c = some q := by
  intro l
  induction l with
  | nil => intro processed h; simp [doceboBlockB] at h
  | cons cd rest ih =>
    intro processed h
    rw [doceboBlockB] at h
    split at h
    next => exact ih _ h
    next c heq =>
      split at h
      · exact ih _ h
      · split at h
        next q0 heq2 =>
          rcases List.mem_cons.mp h with h | h
          · exact ⟨c, h ▸ heq2⟩
          · exact ih _ h
        next => exact ih _ h

theorem mem_docebo {dom : Dom} {q : Question}
    (h : q ∈ detectByDoceboStructure dom) :
    ∃ cp, doceboValidateQ dom cp = some q := by
  rw [detectByDoceboStructure] at h
  rcases List.mem_append.mp h with h | h
  · obtain ⟨p, hp⟩ := doceboBlockA_mem _ _ h
    exact ⟨p, doceboCandidateA_spec hp⟩
  · obtain ⟨c, hc⟩ := doceboBlockB_mem _ _ h
    exact ⟨c, doceboCandidateB_spec hc⟩

theorem mem_numberPattern {dom : Dom} {q : Question}
    (h : q ∈ detectByQuestionNumberPattern dom) :
    ∃ p n m c q0, p ∈ walkerNodes dom ∧
      firstQMatch (textContent dom p) = some (n, m) ∧
      findQuestionContainer dom p = some c ∧
      extractQuestionData dom c = some q0 ∧
      q = { q0 with questionNumber := some n, totalQuestions := some m } := by
  rw [detectByQuestionNumberPattern, List.mem_filterMap] at h
  obtain ⟨p, hp, hf⟩ := h
  split at hf
  next => simp at hf
  next nm heq =>
    split at hf
    next => simp at hf
    next c heqc =>
      split at hf
      next => simp at hf
      next q0 heqx =>
        simp only [Option.some.injEq] at hf
        exact ⟨p, nm.1, nm.2, c, q0, hp, heq, heqc, heqx, hf.symm⟩

theorem mem_checkbox {dom : Dom} {q : Question}
    (h : q ∈ detectByCheckboxGrouping dom) :
    ∃ cp, extractQuestionData dom cp = some q := by
  rw [detectByCheckboxGrouping, List.mem_filterMap] at h
  obtain ⟨cn, _, hf⟩ := h
  split at hf
  · split at hf
    next q0 heq =>
      split at hf
      · simp only [Option.some.injEq] at hf
        exact ⟨cn.1, hf ▸ heq⟩
      · simp at hf
    next => simp at hf
  · simp at hf

theorem mem_radio {dom : Dom} {q : Question}
    (h : q ∈ detectByRadioGrouping dom) :
    ∃ cp, extractQuestionData dom cp = some q := by
  rw [detectByRadioGrouping, List.mem_filterMap] at h
  obtain ⟨g, _, hf⟩ := h
  split at hf
  · split at hf
    next r0 heq =>
      split at hf
      next c heqc => exact ⟨c, hf⟩
      next => simp at hf
    next => simp at hf
  · simp at hf

theorem mem_selPass {dom : Dom} {f : ElemData → Bool} {q : Question}
    (h : q ∈ selPass dom f) :
    ∃ cp, extractQuestionData dom cp = some q := by
  rw [selPass, List.mem_filterMap] at h
  obtain ⟨pd, _, hf⟩ := h
  split at hf
  next q0 heq =>
    split at hf
    · simp only [Option.some.injEq] at hf
      exact ⟨pd.1, hf ▸ heq⟩
    · simp at hf
  next => simp at hf

theorem mem_semantic {dom : Dom} {q : Question}
    (h : q ∈ detectBySemanticHTML dom) :
    ∃ cp, extractQuestionData dom cp = some q := by
  rw [detectBySemanticHTML] at h
  simp only [List.mem_append] at h
  rcases h with ((((((h | h) | h) | h) | h) | h) | h) <;> exact mem_selPass h

theorem mem_dataAttrs {dom : Dom} {q : Question}
    (h : q ∈ detectByDataAttributes dom) :
    ∃ cp, extractQuestionData dom cp = some q := by
  rw [detectByDataAttributes] at h
  simp only [List.mem_append] at h
  rcases h with (((h | h) | h) | h) <;> exact mem_selPass h

/-- Every record of the strategy stream either comes from the
numbered-phrase strategy or is a plain `extractQuestionData` result. -/
theorem strategyStream_cases {dom : Dom} {q : Question}
    (h : q ∈ strategyStream dom) :
    q ∈ detectByQuestionNumberPattern dom ∨
    (∃ cp, extractQuestionData dom cp = some q) := by
  rw [strategyStream] at h
  simp only [List.mem_append] at h
  rcases h with ((((h | h) | h) | h) | h) | h
  · obtain ⟨cp, hcp⟩ := mem_docebo h
    exact Or.inr ⟨cp, (doceboValidateQ_spec hcp).1⟩
  · exact Or.inl h
  · exact Or.inr (mem_checkbox h)
  · exact Or.inr (mem_radio h)
  · exact Or.inr (mem_semantic h)
  · exact Or.inr (mem_dataAttrs h)

/-! ## Claim theorems -/

theorem mem_detectQuestions_stream {dom : Dom} {q : Question}
    (h : q ∈ detectQuestions dom) : q ∈ strategyStream dom := by
  rw [detectQuestions, deduplicateQuestions] at h
  exact (dedupeByElement_sublist _ _).subset ((dedupPass_sublist _ _ _).subset h)

/-- C1: every record returned by `detectQuestions` satisfies the
QuestionRecord invariant: its answers list has length ≥ 2, its question
text is non-empty after normalization (`cleanText`), and its question
text — case-insensitively, after trimming — differs from the text of
each of its own answers. -/
theorem detectQuestions_invariant (dom : Dom) (q : Question)
    (h : q ∈ detectQuestions dom) :
    2 ≤ q.answers.length ∧ cleanText q.questionText ≠ [] ∧
    ∀ a ∈ q.answers, jsTrim (lower q.questionText) ≠ jsTrim (lower a.text) := by
  have hs := mem_detectQuestions_stream h
  rcases strategyStream_cases hs with h2 | ⟨cp, hx⟩
  · obtain ⟨p, n, m, c, q0, _, _, _, hx, hq⟩ := mem_numberPattern h2
    obtain spec := extractQuestionData_spec hx
    subst hq
    exact ⟨spec.2.2.2.2.1, spec.2.2.2.2.2.2.2.1, spec.2.2.2.2.2.2.2.2⟩
  · obtain spec := extractQuestionData_spec hx
    exact ⟨spec.2.2.2.2.1, spec.2.2.2.2.2.2.2.1, spec.2.2.2.2.2.2.2.2⟩

/-- Witness for C1: the invariant holds of the concrete record detected
on `franceDom`. -/
theorem detectQuestions_invariant_witness :
    franceQ ∈ detectQuestions franceDom ∧
    (2 ≤ franceQ.answers.length ∧ cleanText franceQ.questionText ≠ [] ∧
     ∀ a ∈ franceQ.answers,
       jsTrim (lower franceQ.questionText) ≠ jsTrim (lower a.text)) :=
  ⟨by decide, detectQuestions_invariant franceDom franceQ (by decide)⟩

/-- C9: a returned record carries non-null `questionNumber` and
`totalQuestions` only when the numbered-phrase strategy produced it, in
which case they equal the integers N, M of the matched
`Question N of M` phrase; records from every other strategy carry `none`
in both fields. -/
theorem detectQuestions_numberFields (dom : Dom) (q : Question)
    (h : q ∈ detectQuestions dom) :
    (q.questionNumber = none ∧ q.totalQuestions = none) ∨
    (q ∈ detectByQuestionNumberPattern dom ∧
     ∃ p n m, p ∈ walkerNodes dom ∧
       firstQMatch (textContent dom p) = some (n, m) ∧
       q.questionNumber = some n ∧ q.totalQuestions = some m) := by
  have hs := mem_detectQuestions_stream h
  rcases strategyStream_cases hs with h2 | ⟨cp, hx⟩
  · obtain ⟨p, n, m, c, q0, hp, hm, hc, hx, hq⟩ := mem_numberPattern h2
    subst hq
    exact Or.inr ⟨h2, p, n, m, hp, hm, rfl, rfl⟩
  · obtain spec := extractQuestionData_spec hx
    exact Or.inl ⟨spec.2.1, spec.2.2.1⟩

/-- Witness for C9: the concrete record detected on `numberedDom`
carries the parsed numbers 2 and 10. -/
theorem detectQuestions_numberFields_witness :
    numberedQ ∈ detectQuestions numberedDom ∧
    ((numberedQ.questionNumber = none ∧ numberedQ.totalQuestions = none) ∨
     (numberedQ ∈ detectByQuestionNumberPattern numberedDom ∧
      ∃ p n m, p ∈ walkerNodes numberedDom ∧
        firstQMatch (textContent numberedDom p) = some (n, m) ∧
        numberedQ.questionNumber = some n ∧ numberedQ.totalQuestions = some m)) :=
  ⟨by decide, detectQuestions_numberFields numberedDom numberedQ (by decide)⟩

/-- C2: detection is a deterministic, side-effect-free function of the
snapshot: a call returns the detector's instance state unchanged (the
method writes no field; its bookkeeping is created fresh per call), so a
second call on the same unchanged snapshot returns the same record list
with the same dedup keys in the same order. -/
theorem detectQuestions_idempotent (d : Detector) (dom : Dom) :
    (detectQuestionsS d dom).2 = d ∧
    (detectQuestionsS (detectQuestionsS d dom).2 dom).1 = (detectQuestionsS d dom).1 ∧
    ((detectQuestionsS (detectQuestionsS d dom).2 dom).1).map qKey =
      ((detectQuestionsS d dom).1).map qKey :=
  ⟨rfl, rfl, rfl⟩

/-- C3 counterexample: the strategy loop of `detectQuestions` wraps
`strategy.call(this)` in no try/catch, so a throwing strategy aborts the
whole call: the exception propagates and the later strategy's record —
which the same pipeline returns when the throwing strategy is absent —
is not returned. -/
theorem throwing_strategy_aborts :
    detectQuestionsE [boomStrategy, okStrategy] [] = Except.error (cs "boom") ∧
    detectQuestionsE [okStrategy] [] = Except.ok [okQ] := ⟨rfl, rfl⟩

/-- C3 amended: when every strategy before `bad` succeeds and `bad`
throws, `detectQuestions` propagates that exception; the strategies after
`bad` never run and contribute nothing. -/
theorem detectQuestionsE_propagates
    (pre post : List (Dom → Except Str (List Question)))
    (bad : Dom → Except Str (List Question)) (dom : Dom) (e : Str)
    (hpre : ∀ s ∈ pre, ∃ qs, s dom = Except.ok qs)
    (hbad : bad dom = Except.error e) :
    detectQuestionsE (pre ++ bad :: post) dom = Except.error e := by
  have main : runStrategiesE (pre ++ bad :: post) dom = Except.error e := by
    induction pre with
    | nil =>
      rw [List.nil_append, runStrategiesE, hbad]
    | cons s pre ih =>
      obtain ⟨qs, hs⟩ := hpre s (List.mem_cons_self s pre)
      rw [List.cons_append, runStrategiesE, hs,
        ih (fun s2 hs2 => hpre s2 (List.mem_cons_of_mem s hs2))]
  rw [detectQuestionsE, main]

/-- Witness for the amended C3: a successful strategy followed by a
throwing one still yields the propagated exception. -/
theorem detectQuestionsE_propagates_witness :
    detectQuestionsE [okStrategy, boomStrategy] [] = Except.error (cs "boom") :=
  detectQuestionsE_propagates [okStrategy] [] boomStrategy [] (cs "boom")
    (by
      intro s hs
      rw [List.mem_singleton] at hs
      subst hs
      exact ⟨[okQ], rfl⟩)
    rfl

/-- C4 counterexample: the question text "Subject Object Access
permission" has ≤ 5 tokens, no "?" and no interrogative keyword, yet on
`subjObjDom` detection returns one record for its container (through the
checkbox-grouping strategy), not zero: the answer-list rejection is not
shared by every strategy. -/
theorem answerList_reaches_output :
    (jsSplitWs (lower subjObjQ.questionText)).length ≤ 5 ∧
    hasQMark (lower subjObjQ.questionText) = false ∧
    hasKw kwFullList (lower subjObjQ.questionText) = false ∧
    detectQuestions subjObjDom = [subjObjQ] ∧
    subjObjQ.element = [0] :=
  ⟨by decide, by decide, by decide, by decide, rfl⟩

/-- C4 amended: the answer-list rejection is applied by the Docebo
strategy only: no record that strategy emits has a question text with
≤ 5 tokens, no "?" and no interrogative keyword. -/
theorem docebo_rejects_answer_lists (dom : Dom) (q : Question)
    (h : q ∈ detectByDoceboStructure dom) :
    ¬ ((jsSplitWs (lower q.questionText)).length ≤ 5 ∧
       hasQMark (lower q.questionText) = false ∧
       hasKw kwFullList (lower q.questionText) = false) := by
  obtain ⟨cp, hcp⟩ := mem_docebo h
  exact (doceboValidateQ_spec hcp).2

/-- Witness for the amended C4 at a concrete Docebo snapshot. -/
theorem docebo_rejects_answer_lists_witness :
    franceQ ∈ detectByDoceboStructure franceDom ∧
    ¬ ((jsSplitWs (lower franceQ.questionText)).length ≤ 5 ∧
       hasQMark (lower franceQ.questionText) = false ∧
       hasKw kwFullList (lower franceQ.questionText) = false) :=
  ⟨by decide, docebo_rejects_answer_lists franceDom franceQ (by decide)⟩

/-- C5 counterexample: `findQuestionContainer` walks ancestors with no
5-level bound: on `deepDom` the seed is a selectable input and the
returned container sits six levels above it, and it is not the
common-ancestor fallback (which yields nothing here). -/
theorem findQuestionContainer_unbounded :
    ((elemAt deepDom [0, 0, 0, 0, 0, 0, 0]).elim false isSelectableInput) = true ∧
    findQuestionContainer deepDom [0, 0, 0, 0, 0, 0, 0] = some [0] ∧
    ([0, 0, 0, 0, 0, 0, 0] : Path).length - ([0] : Path).length = 6 ∧
    findCommonAncestor (inputsIn deepDom [0, 0, 0, 0, 0, 0, 0]) ≠ some [0] := by
  refine ⟨by decide, by decide, by decide, by decide⟩

theorem doceboParentWalk_le (dom : Dom) :
    ∀ (fuel : Nat) (p res : Path), doceboParentWalk dom fuel (some p) = some res →
      res = p.take res.length ∧ p.length < res.length + fuel := by
  intro fuel
  induction fuel with
  | zero => intro p res h; simp [doceboParentWalk] at h
  | succ f ih =>
    intro p res h
    rw [doceboParentWalk] at h
    split at h
    next => simp at h
    next =>
      split at h
      next =>
        simp only [Option.some.injEq] at h
        subst h
        exact ⟨(List.take_length _).symm, by omega⟩
      next =>
        cases hp : p with
        | nil =>
          rw [hp] at h
          simp [parentPath, doceboParentWalk] at h
        | cons a t =>
          rw [hp] at h
          rw [show parentPath (a :: t) = some ((a :: t).dropLast) from rfl] at h
          obtain ⟨hres, hlen⟩ := ih _ res h
          have hle : res.length ≤ ((a :: t).dropLast).length := by
            have := congrArg List.length hres
            rw [List.length_take] at this
            omega
          have hdl : ((a :: t).dropLast).length = (a :: t).length - 1 :=
            List.length_dropLast (a :: t)
          constructor
          · rw [List.dropLast_eq_take, List.take_take] at hres
            rw [min_eq_left (by omega)] at hres
            exact hres
          · simp only [List.length_cons] at hdl ⊢
            omega

/-- C5 amended: the 5-level depth bound applies only to the Docebo
strategy's fallback parent walk: a container it returns for a content
div is an ancestor between 1 and 5 levels above it.
`findQuestionContainer` itself is unbounded. -/
theorem doceboWalk_bound (dom : Dom) (e res : Path)
    (h : doceboParentWalk dom 5 (parentPath e) = some res) :
    res = e.take res.length ∧ 1 ≤ e.length - res.length ∧
    e.length - res.length ≤ 5 := by
  cases he : e with
  | nil =>
    rw [he] at h
    simp [parentPath, doceboParentWalk] at h
  | cons a t =>
    rw [he] at h
    rw [show parentPath (a :: t) = some ((a :: t).dropLast) from rfl] at h
    obtain ⟨hres, hlen⟩ := doceboParentWalk_le dom 5 _ res h
    have hle : res.length ≤ ((a :: t).dropLast).length := by
      have := congrArg List.length hres
      rw [List.length_take] at this
      omega
    have hdl : ((a :: t).dropLast).length = (a :: t).length - 1 :=
      List.length_dropLast (a :: t)
    refine ⟨?_, ?_, ?_⟩
    · rw [List.dropLast_eq_take, List.take_take] at hres
      rw [min_eq_left (by omega)] at hres
      exact hres
    · simp only [List.length_cons] at hdl hle ⊢
      omega
    · simp only [List.length_cons] at hdl hlen ⊢
      omega

/-- Witness for the amended C5 at a concrete Docebo snapshot. -/
theorem doceboWalk_bound_witness :
    ([0] : Path) = ([0, 0] : Path).take ([0] : Path).length ∧
    1 ≤ ([0, 0] : Path).length - ([0] : Path).length ∧
    ([0, 0] : Path).length - ([0] : Path).length ≤ 5 :=
  doceboWalk_bound franceDom [0, 0] [0] (by decide)

/-- C6 counterexample: on `pickOneDom` two distinct strategies (checkbox
grouping and semantic HTML) resolve the same container `[0]`, yet the
final list contains zero records for it — the deduplicator drops the
record — not exactly one. -/
theorem same_container_zero_records :
    ((detectByCheckboxGrouping pickOneDom).any (fun r => r.element == [0])) = true ∧
    ((detectBySemanticHTML pickOneDom).any (fun r => r.element == [0])) = true ∧
    ((detectQuestions pickOneDom).filter (fun r => r.element == [0])).length = 0 :=
  ⟨by decide, by decide, by decide⟩

/-- C6 amended: the final list contains at most one record per container
(its elements are pairwise distinct), and any record that appears for a
container is the first record produced for it in strategy priority
order; the deduplicator may still drop a container's only record. -/
theorem detectQuestions_container_unique (dom : Dom) :
    (detectQuestions dom).Pairwise (fun a b => a.element ≠ b.element) ∧
    ∀ q ∈ detectQuestions dom,
      (strategyStream dom).find? (fun r => r.element == q.element) = some q := by
  constructor
  · exact List.Pairwise.sublist (dedupPass_sublist _ _ _)
      (dedupeByElement_pairwise _ [])
  · intro q hq
    rw [detectQuestions, deduplicateQuestions] at hq
    have hq2 := (dedupPass_sublist _ _ _).subset hq
    exact (mem_dedupeByElement _ [] q hq2).2

/-- Witness for the amended C6 at a concrete snapshot: the surviving
record is the first one the strategy stream produced for its
container. -/
theorem detectQuestions_container_unique_witness :
    franceQ ∈ detectQuestions franceDom ∧
    (strategyStream franceDom).find? (fun r => r.element == franceQ.element) =
      some franceQ :=
  ⟨by decide, (detectQuestions_container_unique franceDom).2 franceQ (by decide)⟩

/-! ## C7: first-record-per-key characterization of the deduplicator -/

/-- The three filter conditions of the deduplicator's second pass, as one
predicate: a record "survives" when its normalized question text is not a
global answer text, is not a short non-question, and differs from each of
its own answers. -/
def dedupPasses (ats : List Str) (q : Question) : Bool :=
  !(ats.contains (jsTrim (lower q.questionText))) &&
  !((jsTrim (lower q.questionText)).length < 15 &&
    !hasQMark (jsTrim (lower q.questionText)) &&
    !hasKw kwShortList (jsTrim (lower q.questionText))) &&
  !(q.answers.any (fun a => jsTrim (lower a.text) == jsTrim (lower q.questionText)))

theorem dedupPass_mem_key (ats : List Str) :
    ∀ (qs : List Question) (seen : List Str) (q : Question),
      q ∈ dedupPass ats qs seen →
      ¬ (qKey q) ∈ seen ∧ dedupPasses ats q = true := by
  intro qs
  induction qs with
  | nil => intro seen q h; simp [dedupPass] at h
  | cons r qs ih =>
    intro seen q h
    rw [dedupPass] at h
    split at h
    next => exact ih _ _ h
    next hc1 =>
      split at h
      next => exact ih _ _ h
      next hc2 =>
        split at h
        next => exact ih _ _ h
        next hc3 =>
          split at h
          next => exact ih _ _ h
          next hc4 =>
            rcases List.mem_cons.mp h with h | h
            · subst h
              constructor
              · intro hmem
                exact hc1 (List.elem_iff.mpr hmem)
              · rw [dedupPasses]
                simp only [Bool.and_eq_true, Bool.not_eq_true']
                exact ⟨⟨by simpa using hc2, by simpa using hc3⟩, by simpa using hc4⟩
            · obtain ⟨hns, hp⟩ := ih _ _ h
              exact ⟨fun hmem => hns (List.mem_cons_of_mem _ hmem), hp⟩

theorem dedupPass_filter_key (ats : List Str) :
    ∀ (qs : List Question) (seen : List Str) (K : Str), ¬ K ∈ seen →
      (dedupPass ats qs seen).filter (fun r => qKey r == K) =
        (qs.find? (fun r => dedupPasses ats r && (qKey r == K))).toList := by
  intro qs
  induction qs with
  | nil => intro seen K hK; simp [dedupPass]
  | cons q qs ih =>
    intro seen K hK
    rw [dedupPass]
    by_cases b1 : seen.contains ((jsTrim (lower q.questionText)).take 50) = true
    · rw [if_pos b1]
      have hne : (qKey q == K) = false := by
        rw [beq_eq_false_iff_ne]
        intro heq
        exact hK (heq ▸ List.elem_iff.mp b1)
      rw [ih seen K hK, List.find?_cons_of_neg _ (by simp [hne])]
    · rw [if_neg b1]
      by_cases b2 : ats.contains (jsTrim (lower q.questionText)) = true
      · have hfail : dedupPasses ats q = false := by
          rw [dedupPasses]
          simp only [b2, Bool.not_true, Bool.false_and]
        rw [if_pos b2, ih seen K hK, List.find?_cons_of_neg _ (by simp [hfail])]
      · rw [if_neg b2]
        by_cases b3 : ((jsTrim (lower q.questionText)).length < 15 &&
            !hasQMark (jsTrim (lower q.questionText)) &&
            !hasKw kwShortList (jsTrim (lower q.questionText))) = true
        · have hfail : dedupPasses ats q = false := by
            rw [dedupPasses]
            simp only [b3, Bool.not_true, Bool.and_false, Bool.false_and]
          rw [if_pos b3, ih seen K hK, List.find?_cons_of_neg _ (by simp [hfail])]
        · rw [if_neg b3]
          by_cases b4 : (q.answers.any (fun a =>
              jsTrim (lower a.text) == jsTrim (lower q.questionText))) = true
          · have hfail : dedupPasses ats q = false := by
              rw [dedupPasses]
              simp only [b4, Bool.not_true, Bool.and_false]
            rw [if_pos b4, ih seen K hK, List.find?_cons_of_neg _ (by simp [hfail])]
          · rw [if_neg b4]
            have hpass : dedupPasses ats q = true := by
              rw [dedupPasses]
              simp only [Bool.and_eq_true, Bool.not_eq_true']
              exact ⟨⟨by simpa using b2, by simpa using b3⟩, by simpa using b4⟩
            by_cases bK : (qKey q == K) = true
            · have hKeq : qKey q = K := by simpa using bK
              have hsplit : (q :: dedupPass ats qs
                  ((jsTrim (lower q.questionText)).take 50 :: seen)).filter
                    (fun r => qKey r == K) =
                  q :: (dedupPass ats qs
                    ((jsTrim (lower q.questionText)).take 50 :: seen)).filter
                      (fun r => qKey r == K) := by
                simp [List.filter_cons, bK]
              rw [hsplit]
              have hnil : (dedupPass ats qs
                  ((jsTrim (lower q.questionText)).take 50 :: seen)).filter
                    (fun r => qKey r == K) = [] := by
                rw [List.filter_eq_nil_iff]
                intro r hr hpr
                have hns := (dedupPass_mem_key ats qs _ r hr).1
                have hrK : qKey r = K := by simpa using hpr
                exact hns (by
                  rw [hrK, ← hKeq]
                  exact List.mem_cons_self _ _)
              rw [hnil, List.find?_cons_of_pos _ (by simp [hpass, bK])]
              rfl
            · have hsplit : (q :: dedupPass ats qs
                  ((jsTrim (lower q.questionText)).take 50 :: seen)).filter
                    (fun r => qKey r == K) =
                  (dedupPass ats qs
                    ((jsTrim (lower q.questionText)).take 50 :: seen)).filter
                      (fun r => qKey r == K) := by
                simp [List.filter_cons, bK]
              rw [hsplit]
              have hK2 : ¬ K ∈ ((jsTrim (lower q.questionText)).take 50 :: seen) := by
                intro hmem
                rcases List.mem_cons.mp hmem with hmem | hmem
                · apply bK
                  have hqk : qKey q = K := hmem.symm
                  simp [hqk]
                · exact hK hmem
              rw [ih _ K hK2, List.find?_cons_of_neg _ (by simp [bK])]

theorem find?_first_index {α : Type} (p : α → Bool) :
    ∀ (l : List α) (r : α), l.find? p = some r →
      ∃ i0, ∃ h0 : i0 < l.length, l.get ⟨i0, h0⟩ = r ∧ p r = true ∧
        ∀ i' (h' : i' < l.length), i' < i0 → p (l.get ⟨i', h'⟩) = false := by
  intro l
  induction l with
  | nil => intro r h; simp at h
  | cons a t ih =>
    intro r h
    by_cases hp : p a = true
    · rw [List.find?_cons_of_pos _ hp] at h
      simp only [Option.some.injEq] at h
      subst h
      exact ⟨0, by simp, rfl, hp, fun i' h' hlt => absurd hlt (by omega)⟩
    · rw [List.find?_cons_of_neg _ (by simpa using hp)] at h
      obtain ⟨i0, h0, hget, hpr, hfirst⟩ := ih r h
      refine ⟨i0 + 1, by simpa using Nat.succ_lt_succ h0, ?_, hpr, ?_⟩
      · simpa using hget
      · intro i' h' hlt
        cases i' with
        | zero => simpa using hp
        | succ i2 =>
          have h2 : i2 < t.length := by simpa using h'
          have := hfirst i2 h2 (by omega)
          simpa using this

/-- C7: among the records that survive the deduplicator's filters, only
the first record with a given 50-character dedup key appears in the
output; every later surviving record with that key is discarded. -/
theorem dedup_first_per_key (qs : List Question) (i j : Nat)
    (hi : i < qs.length) (hj : j < qs.length) (hij : i < j)
    (hpi : dedupPasses (collectAnswerTexts qs) (qs.get ⟨i, hi⟩) = true)
    (hpj : dedupPasses (collectAnswerTexts qs) (qs.get ⟨j, hj⟩) = true)
    (hkey : qKey (qs.get ⟨i, hi⟩) = qKey (qs.get ⟨j, hj⟩)) :
    ∃ i0, ∃ h0 : i0 < qs.length, i0 ≤ i ∧
      dedupPasses (collectAnswerTexts qs) (qs.get ⟨i0, h0⟩) = true ∧
      qKey (qs.get ⟨i0, h0⟩) = qKey (qs.get ⟨j, hj⟩) ∧
      (deduplicateQuestions qs).filter
        (fun r => qKey r == qKey (qs.get ⟨j, hj⟩)) = [qs.get ⟨i0, h0⟩] := by
  cases hfind : qs.find? (fun r =>
      dedupPasses (collectAnswerTexts qs) r && (qKey r == qKey (qs.get ⟨j, hj⟩))) with
  | none =>
    exfalso
    rw [List.find?_eq_none] at hfind
    have hpred : (dedupPasses (collectAnswerTexts qs) (qs.get ⟨i, hi⟩) &&
        (qKey (qs.get ⟨i, hi⟩) == qKey (qs.get ⟨j, hj⟩))) = true := by
      rw [hpi, hkey]
      simp
    exact hfind _ (List.get_mem qs i hi) hpred
  | some r =>
    obtain ⟨i0, h0, hget, hpr, hfirst⟩ := find?_first_index _ qs r hfind
    have hi0le : i0 ≤ i := by
      by_contra hgt
      push_neg at hgt
      have hfalse := hfirst i hi hgt
      rw [hpi, hkey] at hfalse
      simp at hfalse
    have hfilter : (deduplicateQuestions qs).filter
        (fun r => qKey r == qKey (qs.get ⟨j, hj⟩)) = [r] := by
      rw [deduplicateQuestions,
        dedupPass_filter_key _ qs [] _ (by simp), hfind]
      rfl
    have hpr2 := (Bool.and_eq_true _ _).mp hpr
    refine ⟨i0, h0, hi0le, ?_, ?_, ?_⟩
    · rw [hget]; exact hpr2.1
    · rw [hget]; simpa using hpr2.2
    · rw [hget]; exact hfilter

/-- A surviving record used by the C7 witness. -/
def keyA : Question :=
  { element := [1], questionText := cs "Which fruit is the best choice?",
    answers :=
      [{ element := [1, 0], text := cs "apple", isSelected := false, value := cs "apple" },
       { element := [1, 1], text := cs "pear", isSelected := false, value := cs "pear" }],
    questionNumber := none, totalQuestions := none }

/-- A second surviving record with the same dedup key as `keyA`. -/
def keyB : Question :=
  { element := [2], questionText := cs "Which fruit is the best choice?",
    answers :=
      [{ element := [2, 0], text := cs "plum", isSelected := false, value := cs "plum" },
       { element := [2, 1], text := cs "kiwi", isSelected := false, value := cs "kiwi" }],
    questionNumber := none, totalQuestions := none }

/-- Witness for C7: of two surviving records with equal keys, exactly the
first is kept. -/
theorem dedup_first_per_key_witness :
    ∃ i0, ∃ h0 : i0 < ([keyA, keyB] : List Question).length, i0 ≤ 0 ∧
      dedupPasses (collectAnswerTexts [keyA, keyB])
        (([keyA, keyB] : List Question).get ⟨i0, h0⟩) = true ∧
      qKey (([keyA, keyB] : List Question).get ⟨i0, h0⟩) =
        qKey (([keyA, keyB] : List Question).get ⟨1, by decide⟩) ∧
      (deduplicateQuestions [keyA, keyB]).filter
        (fun r => qKey r == qKey (([keyA, keyB] : List Question).get ⟨1, by decide⟩)) =
        [([keyA, keyB] : List Question).get ⟨i0, h0⟩] :=
  dedup_first_per_key [keyA, keyB] 0 1 (by decide) (by decide) (by decide)
    (by decide) (by decide) (by decide)

/-! ## C8 -/

/-- C8: every record `extractAnswers` produces satisfies the AnswerRecord
invariant — its text is trimmed, non-empty (also after normalization), of
length ≥ 2, not `"null"` and free of the configured junk phrases — and an
input whose resolved label text fails those checks contributes no answer
record at all. -/
theorem extractAnswers_invariant (dom : Dom) (cp : Path) :
    (∀ a ∈ extractAnswers dom cp,
      a.text ≠ [] ∧ jsTrim a.text = a.text ∧ cleanText a.text ≠ [] ∧
      2 ≤ a.text.length ∧ lower a.text ≠ cs "null" ∧
      strHas (cs "terminate the subscription") (lower a.text) = false ∧
      strHas (cs "renew the subscription") (lower a.text) = false) ∧
    (∀ ip ∈ inputsIn dom cp, answerFor dom ip = none →
      ∀ a ∈ extractAnswers dom cp, a.element ≠ ip) := by
  constructor
  · intro a ha
    obtain ⟨ht, hl, hne, hcl, hnull, hj1, hj2⟩ := extractAnswers_inv dom cp a ha
    exact ⟨hne, ht, hcl, hl, hnull, hj1, hj2⟩
  · intro ip hip hbad
    exact extractAnswers_drop dom cp ip hip hbad

/-- The first answer record extracted on `franceDom`. -/
def parisA : Answer :=
  { element := [0, 1], text := cs "Paris", isSelected := true, value := cs "paris" }

/-- Witness for C8 at a concrete snapshot. -/
theorem extractAnswers_invariant_witness :
    parisA ∈ extractAnswers franceDom [0] ∧
    (parisA.text ≠ [] ∧ jsTrim parisA.text = parisA.text ∧
     cleanText parisA.text ≠ [] ∧ 2 ≤ parisA.text.length ∧
     lower parisA.text ≠ cs "null" ∧
     strHas (cs "terminate the subscription") (lower parisA.text) = false ∧
     strHas (cs "renew the subscription") (lower parisA.text) = false) :=
  ⟨by decide, (extractAnswers_invariant franceDom [0]).1 parisA (by decide)⟩

end QuizDetect
